import Mathlib

/-!
Shallow embedding of the pi-dashboard metrics retention subsystem
(src/backend/metrics_history.py, src/backend/database.py,
src/backend/service_health.py) and proofs of the specification claims.

Modelling conventions:
* Unix timestamps (Python floats) are modelled as `Int` seconds; the code
  only compares timestamps and takes maxima, so the ordered structure is
  what matters.
* Metric payloads are opaque to the retention layer (`dict` in Python);
  they are modelled as an opaque `Nat` tag.
* Python `dict`s (insertion ordered, unique keys) are modelled as
  association lists; assignment is upsert (update in place, or append at
  the end for a fresh key), matching CPython dict semantics.
* `collections.deque(maxlen=cap)` append is modelled by `dequeAppend`:
  append at the tail, dropping from the head when over capacity.
* Wall-clock reads (`time.time()` / `datetime.now().timestamp()`) become
  explicit `now : Int` parameters; the SQLite database becomes explicit
  lists of rows threaded through the functions; network probes in
  service_health.py become an explicit `ProbeOutcome` datum.
-/

namespace PiDash

/-- One buffered sample: `{'timestamp': ..., 'data': ...}`. -/
structure Entry where
  timestamp : Int
  data : Nat
deriving DecidableEq

/-- Association-list lookup, Python `d.get(k)` / `k in d`. -/
def lookupA {β : Type} (k : String) : List (String × β) → Option β
  | [] => none
  | (k2, v) :: rest => if k2 = k then some v else lookupA k rest

/-- Association-list assignment `d[k] = v`: update in place if the key is
present, otherwise append at the end (CPython dict semantics). -/
def upsertA {β : Type} (k : String) (v : β) : List (String × β) → List (String × β)
  | [] => [(k, v)]
  | (k2, v2) :: rest => if k2 = k then (k2, v) :: rest else (k2, v2) :: upsertA k v rest

/-- The keys of an association list, in order. -/
def keysOf {β : Type} (l : List (String × β)) : List String := l.map Prod.fst

/-- `deque(maxlen=cap).append(e)`: append at the tail, evicting from the
head whatever exceeds the capacity. -/
def dequeAppend (cap : Nat) (xs : List Entry) (e : Entry) : List Entry :=
  (xs ++ [e]).drop ((xs.length + 1) - cap)

/-- The entries evicted by one `dequeAppend` (empty while under capacity). -/
def dequeDropped (cap : Nat) (xs : List Entry) (e : Entry) : List Entry :=
  (xs ++ [e]).take ((xs.length + 1) - cap)

/-- State of the `MetricsHistory` class (metrics_history.py, lines 11-26).
The asyncio lock is a mutual-exclusion device with no effect on the
sequential semantics modelled here and is omitted. -/
structure MetricsHistory where
  buffer_size : Nat
  metrics_buffer : List (String × List Entry)
  docker_buffer : List (String × List Entry)
  last_flush : Int
  flush_interval : Int
  last_flushed_timestamp : List (String × Int)
  last_flushed_docker_timestamp : List (String × Int)
deriving DecidableEq

/-- `MetricsHistory.__init__(buffer_size)`; `t0` is the construction-time
`time.time()` stored into `last_flush`. -/
def MetricsHistory.init (buffer_size : Nat) (t0 : Int) : MetricsHistory :=
  { buffer_size := buffer_size
    metrics_buffer :=
      [("cpu", []), ("memory", []), ("disk", []), ("temperature", []), ("network", [])]
    docker_buffer := []
    last_flush := t0
    flush_interval := 60
    last_flushed_timestamp := []
    last_flushed_docker_timestamp := [] }

/-- `MetricsHistory.add_metric` (lines 28-38): appends only when the
metric type is already a key of the buffer dict. -/
def MetricsHistory.add_metric (h : MetricsHistory) (metric_type : String)
    (data : Nat) (timestamp : Int) : MetricsHistory :=
  match lookupA metric_type h.metrics_buffer with
  | none => h
  | some buf =>
    { h with metrics_buffer :=
        upsertA metric_type (dequeAppend h.buffer_size buf ⟨timestamp, data⟩) h.metrics_buffer }

/-- `MetricsHistory.add_docker_metric` (lines 40-52): creates the deque on
first use, then appends. -/
def MetricsHistory.add_docker_metric (h : MetricsHistory) (container_name : String)
    (data : Nat) (timestamp : Int) : MetricsHistory :=
  let buf := (lookupA container_name h.docker_buffer).getD []
  { h with docker_buffer :=
      upsertA container_name (dequeAppend h.buffer_size buf ⟨timestamp, data⟩) h.docker_buffer }

/-- `MetricsHistory.get_recent_metrics` (lines 54-65). -/
def MetricsHistory.get_recent_metrics (h : MetricsHistory) (metric_type : String)
    (now minutes : Int) : List Entry :=
  let cutoff_time := now - minutes * 60
  match lookupA metric_type h.metrics_buffer with
  | none => []
  | some buf => buf.filter (fun e => cutoff_time ≤ e.timestamp)

/-- `MetricsHistory.get_recent_docker_metrics` (lines 67-78). -/
def MetricsHistory.get_recent_docker_metrics (h : MetricsHistory) (container_name : String)
    (now minutes : Int) : List Entry :=
  let cutoff_time := now - minutes * 60
  match lookupA container_name h.docker_buffer with
  | none => []
  | some buf => buf.filter (fun e => cutoff_time ≤ e.timestamp)

/-- The inner loop of `flush_to_database` for one stream (lines 146-150 /
163-169): walk the buffer in order, inserting every entry with
`timestamp < flush_cutoff and timestamp > last_flushed` and tracking
`max_flushed_timestamp` (initialised to `last_flushed`). Returns the list
of inserted entries in buffer order and the final maximum. -/
def flushStream (flush_cutoff last_flushed : Int) (buf : List Entry) : List Entry × Int :=
  buf.foldl
    (fun acc e =>
      if e.timestamp < flush_cutoff ∧ last_flushed < e.timestamp then
        (acc.1 ++ [e], max acc.2 e.timestamp)
      else acc)
    ([], last_flushed)

/-- One of the two per-dict loops of `flush_to_database` (lines 140-154 and
157-173): iterate the buffer dict in order; skip empty buffers; read the
stream's high-water mark (`.get(key, 0)`), flush the qualifying entries,
and write the new mark back only if it increased. Returns the updated
high-water-mark dict and all inserted rows tagged with their stream. -/
def flushDict (flush_cutoff : Int) (hwm : List (String × Int)) :
    List (String × List Entry) → List (String × Int) × List (String × Entry)
  | [] => (hwm, [])
  | (k, buf) :: rest =>
    if 0 < buf.length then
      let last_flushed := (lookupA k hwm).getD 0
      let fs := flushStream flush_cutoff last_flushed buf
      let hwm2 := if last_flushed < fs.2 then upsertA k fs.2 hwm else hwm
      let r := flushDict flush_cutoff hwm2 rest
      (r.1, fs.1.map (fun e => (k, e)) ++ r.2)
    else
      flushDict flush_cutoff hwm rest

/-- Result of one `flush_to_database` call: the updated state and the rows
inserted into the `metrics` and `docker_metrics` tables during the call
(each row tagged with its stream identity). -/
structure FlushResult where
  state : MetricsHistory
  inserted_metrics : List (String × Entry)
  inserted_docker : List (String × Entry)
deriving DecidableEq

/-- `MetricsHistory.flush_to_database` (lines 128-175). `now` stands for
the call-time clock reading (`time.time()` for the throttle check and
`datetime.now()` for the cutoff are microseconds apart in the source and
are identified). `flush_cutoff = now - 5 minutes`. -/
def MetricsHistory.flush_to_database (h : MetricsHistory) (now : Int) : FlushResult :=
  if now - h.last_flush < h.flush_interval then
    ⟨h, [], []⟩
  else
    let flush_cutoff := now - 5 * 60
    let m := flushDict flush_cutoff h.last_flushed_timestamp h.metrics_buffer
    let d := flushDict flush_cutoff h.last_flushed_docker_timestamp h.docker_buffer
    ⟨{ h with
        last_flushed_timestamp := m.1
        last_flushed_docker_timestamp := d.1
        last_flush := now },
      m.2, d.2⟩

/-- `MetricsHistory.get_all_container_names` (lines 177-180). -/
def MetricsHistory.get_all_container_names (h : MetricsHistory) : List String :=
  keysOf h.docker_buffer

/-! Database layer (database.py). The SQLite tables become lists of rows
in insertion (rowid) order. -/

/-- A row of the `metrics` table (timestamp, metric_type, data). -/
structure MetricRow where
  timestamp : Int
  metric_type : String
  data : Nat
deriving DecidableEq

/-- A row of the `docker_metrics` table. The `container_id` column is
extracted from the opaque payload in the source (`entry['data'].get('id', '')`)
and plays no role in any claim; it is not modelled. -/
structure DockerRow where
  timestamp : Int
  container_name : String
  data : Nat
deriving DecidableEq

/-- Timestamp order on entries, the `ORDER BY timestamp ASC` relation. -/
def tsLE (a b : Entry) : Prop := a.timestamp ≤ b.timestamp

instance : DecidableRel tsLE := fun a b => inferInstanceAs (Decidable (a.timestamp ≤ b.timestamp))

instance : IsTotal Entry tsLE := ⟨fun a b => Int.le_total a.timestamp b.timestamp⟩

instance : IsTrans Entry tsLE := ⟨fun _ _ _ hab hbc => le_trans hab hbc⟩

/-- `get_metrics_range` (database.py lines 98-122): rows of matching type
with `start_time <= timestamp <= end_time`, ascending by timestamp
(ties keep rowid order; `insertionSort` is stable). -/
def get_metrics_range (db : List MetricRow) (metric_type : String)
    (start_time end_time : Int) : List Entry :=
  ((db.filter (fun r =>
      r.metric_type = metric_type ∧ start_time ≤ r.timestamp ∧ r.timestamp ≤ end_time)).map
    (fun r => Entry.mk r.timestamp r.data)).insertionSort tsLE

/-- `get_docker_metrics_range` (database.py lines 124-148). -/
def get_docker_metrics_range (db : List DockerRow) (container_name : String)
    (start_time end_time : Int) : List Entry :=
  ((db.filter (fun r =>
      r.container_name = container_name ∧ start_time ≤ r.timestamp ∧ r.timestamp ≤ end_time)).map
    (fun r => Entry.mk r.timestamp r.data)).insertionSort tsLE

/-- Result of `cleanup_old_data`: the two tables after deletion, and the
value returned to the caller. -/
structure CleanupResult where
  metrics : List MetricRow
  docker : List DockerRow
  deleted_count : Nat
deriving DecidableEq

/-- `cleanup_old_data(days)` (database.py lines 150-161): delete rows with
`timestamp < now - days` from both tables. The returned value is
`cursor.rowcount` read after the second DELETE, i.e. the number of rows
the `docker_metrics` DELETE removed — not the total. -/
def cleanup_old_data (metricsDb : List MetricRow) (dockerDb : List DockerRow)
    (days now : Int) : CleanupResult :=
  let cutoff_time := now - days * 86400
  let keptMetrics := metricsDb.filter (fun r => ¬ r.timestamp < cutoff_time)
  let keptDocker := dockerDb.filter (fun r => ¬ r.timestamp < cutoff_time)
  let deleted_count := (dockerDb.filter (fun r => r.timestamp < cutoff_time)).length
  ⟨keptMetrics, keptDocker, deleted_count⟩

/-- `MetricsHistory.get_historical_metrics` (metrics_history.py lines
80-102), with the database passed explicitly. -/
def MetricsHistory.get_historical_metrics (h : MetricsHistory) (db : List MetricRow)
    (metric_type : String) (range_minutes now : Int) : List Entry :=
  let start_time := now - range_minutes * 60
  if range_minutes ≤ 15 then
    h.get_recent_metrics metric_type now range_minutes
  else
    let db_results := get_metrics_range db metric_type start_time now
    let recent_buffer := h.get_recent_metrics metric_type now 5
    if recent_buffer ≠ [] ∧ db_results ≠ [] then
      db_results ++
        recent_buffer.filter (fun e => (db_results.getLastD ⟨0, 0⟩).timestamp < e.timestamp)
    else if recent_buffer ≠ [] ∧ db_results = [] then
      recent_buffer
    else
      db_results

/-- `MetricsHistory.get_historical_docker_metrics` (lines 104-126). -/
def MetricsHistory.get_historical_docker_metrics (h : MetricsHistory) (db : List DockerRow)
    (container_name : String) (range_minutes now : Int) : List Entry :=
  let start_time := now - range_minutes * 60
  if range_minutes ≤ 15 then
    h.get_recent_docker_metrics container_name now range_minutes
  else
    let db_results := get_docker_metrics_range db container_name start_time now
    let recent_buffer := h.get_recent_docker_metrics container_name now 5
    if recent_buffer ≠ [] ∧ db_results ≠ [] then
      db_results ++
        recent_buffer.filter (fun e => (db_results.getLastD ⟨0, 0⟩).timestamp < e.timestamp)
    else if recent_buffer ≠ [] ∧ db_results = [] then
      recent_buffer
    else
      db_results

/-! Service health (service_health.py). The network probe is I/O; its
observable outcome is modelled as a datum and the `try/except` ladder of
`check_service_health` (lines 52-78) as a case analysis on it. -/

/-- Outcome of one `httpx` GET against a service's health URL: a completed
response with its status code and elapsed milliseconds, a timeout
(`httpx.TimeoutException`), a refused connection (`httpx.ConnectError`),
or any other fault with its description (`except Exception as e`). -/
inductive ProbeOutcome where
  | response (status_code : Nat) (elapsed_ms : Int)
  | timeout
  | connectError
  | otherFault (description : String)
deriving DecidableEq

/-- The fields of the per-service result dict that the classification
writes (`status`, `response_time_ms`, `error`). -/
structure HealthResult where
  name : String
  status : String
  response_time_ms : Option Int
  error : Option String
deriving DecidableEq

/-- `ServiceHealthChecker.check_service_health` (lines 33-80), as a
function of the probe outcome. On a completed response the elapsed time
is recorded before the status check; `2xx` means `200 <= code < 300`. -/
def check_service_health (name : String) (outcome : ProbeOutcome) : HealthResult :=
  match outcome with
  | .response code elapsed =>
    if 200 ≤ code ∧ code < 300 then
      ⟨name, "healthy", some elapsed, none⟩
    else
      ⟨name, "unhealthy", some elapsed, some ("HTTP " ++ toString code)⟩
  | .timeout => ⟨name, "unhealthy", none, some "Timeout"⟩
  | .connectError => ⟨name, "unhealthy", none, some "Connection refused"⟩
  | .otherFault d => ⟨name, "unhealthy", none, some d⟩

/-! Execution-trace model for the capacity-planning claim. main.py's
`collect_metrics_task` (lines 22-56) records a sample for each stream and
then calls `flush_to_database` (which self-throttles to one effective run
per `flush_interval`), sleeping `sampling_period` seconds between
iterations. The trace below runs that loop for the `"cpu"` stream with
`timestamp = now` at each iteration, tracking every row inserted into the
database and every entry evicted from the buffer by capacity. -/

/-- Trace state: the history object, all rows inserted so far, and all
entries evicted from a buffer by capacity so far (tagged by stream). -/
structure TraceState where
  hist : MetricsHistory
  inserted : List (String × Entry)
  evicted : List (String × Entry)
deriving DecidableEq

/-- One iteration of the sampling loop at clock time `t`: record a cpu
sample (noting what the bounded deque evicts), then attempt a flush. -/
def iterAt (s : TraceState) (t : Int) : TraceState :=
  let buf := (lookupA "cpu" s.hist.metrics_buffer).getD []
  let ev := (dequeDropped s.hist.buffer_size buf ⟨t, 0⟩).map (fun e => ("cpu", e))
  let h1 := s.hist.add_metric "cpu" 0 t
  let F := h1.flush_to_database t
  ⟨F.state, s.inserted ++ F.inserted_metrics, s.evicted ++ ev⟩

/-- `n` iterations of the sampling loop with sampling period `p`, starting
from a `MetricsHistory` constructed at time `t0`; iteration `k` runs at
clock time `t0 + k * p`. -/
def runTrace (B : Nat) (t0 p : Int) : Nat → TraceState
  | 0 => ⟨MetricsHistory.init B t0, [], []⟩
  | n + 1 => iterAt (runTrace B t0 p n) (t0 + n * p)

/-- The first `n` samples the trace records: timestamps
`t0, t0 + p, ..., t0 + (n-1)p`. -/
def recs (t0 p : Int) (n : Nat) : List Entry :=
  (List.range n).map (fun k : Nat => ⟨t0 + (k : Int) * p, 0⟩)

/-- Inductive invariant of `runTrace` (a verification artifact, not part
of the embedding): after `n` iterations the cpu buffer holds exactly the
last `B` recorded samples, the clock/high-water-mark bookkeeping is in
range, every sufficiently old buffered entry is covered by the high-water
mark, every covered entry has been inserted, and every evicted entry has
been inserted. -/
def traceInv (B : Nat) (t0 p : Int) (n : Nat) (s : TraceState) : Prop :=
  s.hist.buffer_size = B ∧
  s.hist.flush_interval = 60 ∧
  s.hist.metrics_buffer =
    [("cpu", (recs t0 p n).drop (n - B)), ("memory", []), ("disk", []),
     ("temperature", []), ("network", [])] ∧
  t0 ≤ s.hist.last_flush ∧
  s.hist.last_flush ≤ max t0 (t0 + ((n : Int) - 1) * p) ∧
  t0 + ((n : Int) - 1) * p - s.hist.last_flush < 60 ∧
  ((lookupA "cpu" s.hist.last_flushed_timestamp).getD 0 ≤ s.hist.last_flush - 300 ∨
    (lookupA "cpu" s.hist.last_flushed_timestamp).getD 0 = 0) ∧
  (∀ e ∈ (recs t0 p n).drop (n - B), e.timestamp < s.hist.last_flush - 300 →
    e.timestamp ≤ (lookupA "cpu" s.hist.last_flushed_timestamp).getD 0) ∧
  (∀ e ∈ (recs t0 p n).drop (n - B),
    e.timestamp ≤ (lookupA "cpu" s.hist.last_flushed_timestamp).getD 0 →
    ("cpu", e) ∈ s.inserted) ∧
  (∀ r ∈ s.evicted, r ∈ s.inserted)

/-- A sequence of `record()` calls on one dynamic (docker) stream. -/
def recordDockerAll (h : MetricsHistory) (container_name : String)
    (es : List Entry) : MetricsHistory :=
  es.foldl (fun h2 e => h2.add_docker_metric container_name e.data e.timestamp) h

/-- A sequence of `record()` calls on one fixed (system-metric) stream. -/
def recordMetricAll (h : MetricsHistory) (metric_type : String)
    (es : List Entry) : MetricsHistory :=
  es.foldl (fun h2 e => h2.add_metric metric_type e.data e.timestamp) h

/-- A small concrete state used to witness the flush theorems: a fresh
history built at time 1000 holding one cpu sample with (caller-supplied)
timestamp 500 and one docker sample for container "web" at 450. -/
def sampleH : MetricsHistory :=
  ((MetricsHistory.init 450 1000).add_metric "cpu" 7 500).add_docker_metric "web" 3 450

/-! Helper lemmas about the association-list operations. -/

theorem lookupA_upsertA_self {β : Type} (k : String) (v : β) (l : List (String × β)) :
    lookupA k (upsertA k v l) = some v := by
  induction l with
  | nil => simp [upsertA, lookupA]
  | cons hd tl ih =>
    obtain ⟨k2, v2⟩ := hd
    by_cases hk : k2 = k
    · simp [upsertA, lookupA, hk]
    · simp [upsertA, lookupA, hk, ih]

theorem lookupA_upsertA_ne {β : Type} {k k2 : String} (v : β) (l : List (String × β))
    (hne : k ≠ k2) : lookupA k (upsertA k2 v l) = lookupA k l := by
  have hne2 : ¬ k2 = k := fun h => hne h.symm
  induction l with
  | nil =>
    simp only [upsertA, lookupA, if_neg hne2]
  | cons hd tl ih =>
    obtain ⟨k3, v3⟩ := hd
    simp only [upsertA]
    by_cases hk : k3 = k2
    · rw [if_pos hk]
      subst hk
      simp only [lookupA, if_neg hne2]
    · rw [if_neg hk]
      simp only [lookupA, ih]

theorem lookupA_eq_none_iff {β : Type} (k : String) (l : List (String × β)) :
    lookupA k l = none ↔ k ∉ keysOf l := by
  induction l with
  | nil => simp [lookupA, keysOf]
  | cons hd tl ih =>
    obtain ⟨k2, v2⟩ := hd
    simp only [keysOf, List.map_cons, List.mem_cons] at ih ⊢
    by_cases hk : k2 = k
    · simp [lookupA, hk]
    · simp only [lookupA, if_neg hk, ih]
      constructor
      · intro h hc
        rcases hc with heq | hmem
        · exact hk heq.symm
        · exact h hmem
      · intro h hmem
        exact h (Or.inr hmem)

theorem lookupA_isSome_of_mem {β : Type} {k : String} {v : β} {l : List (String × β)}
    (hmem : (k, v) ∈ l) : ∃ v2, lookupA k l = some v2 := by
  induction l with
  | nil => simp at hmem
  | cons hd tl ih =>
    obtain ⟨k2, v2⟩ := hd
    by_cases hk : k2 = k
    · exact ⟨v2, by simp [lookupA, hk]⟩
    · rcases List.mem_cons.mp hmem with heq | htl
      · exact absurd (congrArg Prod.fst heq).symm hk
      · simpa [lookupA, hk] using ih htl

theorem keysOf_upsertA_of_mem {β : Type} {k : String} (v : β) {l : List (String × β)}
    (hmem : k ∈ keysOf l) : keysOf (upsertA k v l) = keysOf l := by
  induction l with
  | nil => simp [keysOf] at hmem
  | cons hd tl ih =>
    obtain ⟨k2, v2⟩ := hd
    by_cases hk : k2 = k
    · simp [upsertA, hk, keysOf]
    · simp only [keysOf, List.map_cons, List.mem_cons] at hmem
      rcases hmem with heq | htl
      · exact absurd heq.symm hk
      · have h2 := ih (by simpa [keysOf] using htl)
        simp only [keysOf] at h2
        simp only [upsertA, if_neg hk, keysOf, List.map_cons, h2]

theorem mem_of_mem_keysOf {β : Type} {k : String} {l : List (String × β)}
    (hmem : k ∈ keysOf l) : ∃ v, (k, v) ∈ l := by
  induction l with
  | nil => simp [keysOf] at hmem
  | cons hd tl ih =>
    obtain ⟨k2, v2⟩ := hd
    simp only [keysOf, List.map_cons, List.mem_cons] at hmem
    rcases hmem with heq | htl
    · exact ⟨v2, by simp [heq]⟩
    · obtain ⟨v, hv⟩ := ih htl
      exact ⟨v, List.mem_cons_of_mem _ hv⟩

theorem mem_keysOf_of_mem {β : Type} {k : String} {v : β} {l : List (String × β)}
    (hmem : (k, v) ∈ l) : k ∈ keysOf l :=
  List.mem_map_of_mem Prod.fst hmem

/-! Helper lemmas about `flushStream`: the inserted entries are exactly
the qualifying ones in buffer order, and the returned maximum is the fold
of `max` over their timestamps, started at `last_flushed`. -/

/-- Fold of `max` over the timestamps of a list of entries. -/
def tsMax (a : Int) (l : List Entry) : Int :=
  l.foldl (fun m e => max m e.timestamp) a

theorem le_tsMax_self (a : Int) (l : List Entry) : a ≤ tsMax a l := by
  induction l generalizing a with
  | nil => simp [tsMax]
  | cons e tl ih =>
    calc a ≤ max a e.timestamp := le_max_left _ _
    _ ≤ tsMax (max a e.timestamp) tl := ih _
    _ = tsMax a (e :: tl) := rfl

theorem tsMax_le_of_mem {a : Int} {l : List Entry} {e : Entry} (hmem : e ∈ l) :
    e.timestamp ≤ tsMax a l := by
  induction l generalizing a with
  | nil => simp at hmem
  | cons hd tl ih =>
    rcases List.mem_cons.mp hmem with heq | htl
    · subst heq
      calc e.timestamp ≤ max a e.timestamp := le_max_right _ _
      _ ≤ tsMax (max a e.timestamp) tl := le_tsMax_self _ _
      _ = tsMax a (e :: tl) := rfl
    · exact ih htl

theorem tsMax_eq_or_mem (a : Int) (l : List Entry) :
    tsMax a l = a ∨ ∃ e ∈ l, e.timestamp = tsMax a l := by
  induction l generalizing a with
  | nil => exact Or.inl rfl
  | cons hd tl ih =>
    have hrfl : tsMax a (hd :: tl) = tsMax (max a hd.timestamp) tl := rfl
    rcases ih (max a hd.timestamp) with h | ⟨e, hmem, he⟩
    · rcases le_total hd.timestamp a with hle | hle
      · exact Or.inl (by rw [hrfl, h, max_eq_left hle])
      · exact Or.inr ⟨hd, List.mem_cons_self _ _, by rw [hrfl, h, max_eq_right hle]⟩
    · exact Or.inr ⟨e, List.mem_cons_of_mem _ hmem, by rw [hrfl]; exact he⟩

/-- The per-entry flush condition of metrics_history.py line 148 / 165. -/
def flushQual (flush_cutoff last_flushed : Int) (e : Entry) : Prop :=
  e.timestamp < flush_cutoff ∧ last_flushed < e.timestamp

instance (c lf : Int) : DecidablePred (flushQual c lf) := fun e =>
  inferInstanceAs (Decidable (e.timestamp < c ∧ lf < e.timestamp))

theorem flushStream_spec (c lf : Int) (buf : List Entry) :
    flushStream c lf buf =
      (buf.filter (fun e => decide (flushQual c lf e)),
       tsMax lf (buf.filter (fun e => decide (flushQual c lf e)))) := by
  suffices haux : ∀ (buf : List Entry) (acc : List Entry × Int),
      buf.foldl
        (fun acc e =>
          if e.timestamp < c ∧ lf < e.timestamp then
            (acc.1 ++ [e], max acc.2 e.timestamp)
          else acc)
        acc =
      (acc.1 ++ buf.filter (fun e => decide (flushQual c lf e)),
       tsMax acc.2 (buf.filter (fun e => decide (flushQual c lf e)))) by
    simpa [flushStream] using haux buf ([], lf)
  intro buf
  induction buf with
  | nil => intro acc; simp [tsMax]
  | cons e tl ih =>
    intro acc
    by_cases hq : e.timestamp < c ∧ lf < e.timestamp
    · have hq2 : flushQual c lf e := hq
      simp only [List.foldl_cons, if_pos hq, ih, List.filter_cons,
        decide_eq_true_eq, hq2, if_pos]
      simp [tsMax]
    · have hq2 : ¬ flushQual c lf e := hq
      simp only [List.foldl_cons, if_neg hq, ih, List.filter_cons,
        decide_eq_true_eq, hq2, if_neg, ite_false]

theorem mem_flushStream_iff {c lf : Int} {buf : List Entry} {e : Entry} :
    e ∈ (flushStream c lf buf).1 ↔ e ∈ buf ∧ e.timestamp < c ∧ lf < e.timestamp := by
  rw [flushStream_spec]
  simp [List.mem_filter, flushQual, and_assoc]

theorem lf_le_flushStream_max (c lf : Int) (buf : List Entry) :
    lf ≤ (flushStream c lf buf).2 := by
  rw [flushStream_spec]
  exact le_tsMax_self _ _

theorem flushStream_max_le_of_mem {c lf : Int} {buf : List Entry} {e : Entry}
    (hmem : e ∈ (flushStream c lf buf).1) : e.timestamp ≤ (flushStream c lf buf).2 := by
  rw [flushStream_spec] at hmem ⊢
  exact tsMax_le_of_mem hmem

theorem flushStream_max_mem {c lf : Int} {buf : List Entry}
    (hlt : lf < (flushStream c lf buf).2) :
    ∃ e ∈ (flushStream c lf buf).1, e.timestamp = (flushStream c lf buf).2 := by
  rw [flushStream_spec] at hlt ⊢
  rcases tsMax_eq_or_mem lf (buf.filter (fun e => decide (flushQual c lf e))) with h | h
  · exact absurd h (by simpa using ne_of_gt hlt)
  · exact h

theorem flushStream_max_lt_cutoff {c lf : Int} {buf : List Entry}
    (hlt : lf < (flushStream c lf buf).2) : (flushStream c lf buf).2 < c := by
  obtain ⟨e, hmem, he⟩ := flushStream_max_mem hlt
  rw [← he]
  exact (mem_flushStream_iff.mp hmem).2.1

/-! Helper lemmas about `flushDict`. -/

theorem flushDict_mem_key (c : Int) (bufs : List (String × List Entry)) :
    ∀ (hwm : List (String × Int)) (k : String) (e : Entry),
      (k, e) ∈ (flushDict c hwm bufs).2 → k ∈ keysOf bufs := by
  induction bufs with
  | nil => intro hwm k e hmem; simp [flushDict] at hmem
  | cons hd rest ih =>
    obtain ⟨k0, buf0⟩ := hd
    intro hwm k e hmem
    by_cases hlen : 0 < buf0.length
    · simp only [flushDict, if_pos hlen, List.mem_append] at hmem
      rcases hmem with hbatch | hrest
    -- `hbatch` is membership in the head stream's batch, so the key is `k0`
      · simp only [List.mem_map] at hbatch
        obtain ⟨x, _, hx⟩ := hbatch
        have hk : k0 = k := congrArg Prod.fst hx
        simp [keysOf, hk]
      · exact List.mem_cons_of_mem _ (ih _ k e hrest)
    · simp only [flushDict, if_neg hlen] at hmem
      exact List.mem_cons_of_mem _ (ih _ k e hmem)

theorem flushDict_lookup_of_not_mem (c : Int) (bufs : List (String × List Entry)) :
    ∀ (hwm : List (String × Int)) (k : String), k ∉ keysOf bufs →
      lookupA k (flushDict c hwm bufs).1 = lookupA k hwm := by
  induction bufs with
  | nil => intro hwm k _; rfl
  | cons hd rest ih =>
    obtain ⟨k0, buf0⟩ := hd
    intro hwm k hk
    have hk0 : k ≠ k0 := by
      intro h
      exact hk (by simp [keysOf, h])
    have hkrest : k ∉ keysOf rest := by
      intro h
      exact hk (by simp [keysOf] at h ⊢; exact Or.inr h)
    by_cases hlen : 0 < buf0.length
    · simp only [flushDict, if_pos hlen]
      rw [ih _ k hkrest]
      by_cases hup : (lookupA k0 hwm).getD 0 <
          (flushStream c ((lookupA k0 hwm).getD 0) buf0).2
      · rw [if_pos hup, lookupA_upsertA_ne _ _ hk0]
      · rw [if_neg hup]
    · simp only [flushDict, if_neg hlen]
      exact ih _ k hkrest

theorem flushDict_hwm_mono (c : Int) (bufs : List (String × List Entry)) :
    ∀ (hwm : List (String × Int)) (k : String),
      (lookupA k hwm).getD 0 ≤ (lookupA k (flushDict c hwm bufs).1).getD 0 := by
  induction bufs with
  | nil => intro hwm k; simp [flushDict]
  | cons hd rest ih =>
    obtain ⟨k0, buf0⟩ := hd
    intro hwm k
    by_cases hlen : 0 < buf0.length
    · simp only [flushDict, if_pos hlen]
      by_cases hup : (lookupA k0 hwm).getD 0 <
          (flushStream c ((lookupA k0 hwm).getD 0) buf0).2
      · rw [if_pos hup]
        refine le_trans ?_ (ih (upsertA k0 (flushStream c ((lookupA k0 hwm).getD 0) buf0).2 hwm) k)
        by_cases hk : k = k0
        · subst hk
          rw [lookupA_upsertA_self]
          exact le_of_lt hup
        · rw [lookupA_upsertA_ne _ _ hk]
      · rw [if_neg hup]
        exact ih hwm k
    · simp only [flushDict, if_neg hlen]
      exact ih hwm k

theorem flushDict_key_spec (c : Int) (bufs : List (String × List Entry)) :
    ∀ (hwm : List (String × Int)) (k : String) (buf : List Entry),
      (k, buf) ∈ bufs → (keysOf bufs).Nodup →
      (lookupA k (flushDict c hwm bufs).1 =
        (if 0 < buf.length ∧
            (lookupA k hwm).getD 0 < (flushStream c ((lookupA k hwm).getD 0) buf).2
         then some (flushStream c ((lookupA k hwm).getD 0) buf).2
         else lookupA k hwm)) ∧
      (∀ e, (k, e) ∈ (flushDict c hwm bufs).2 ↔
        e ∈ buf ∧ e.timestamp < c ∧ (lookupA k hwm).getD 0 < e.timestamp) := by
  induction bufs with
  | nil => intro hwm k buf hmem _; simp at hmem
  | cons hd rest ih =>
    obtain ⟨k0, buf0⟩ := hd
    intro hwm k buf hmem hnd
    have hnd2 : k0 ∉ List.map Prod.fst rest ∧ (List.map Prod.fst rest).Nodup := by
      rw [keysOf, List.map_cons, List.nodup_cons] at hnd
      exact hnd
    have hnd0 : k0 ∉ keysOf rest := hnd2.1
    have hndr : (keysOf rest).Nodup := hnd2.2
    rcases List.mem_cons.mp hmem with heq | hrest
    · -- the claimed stream is the head of the dict
      have hk : k = k0 := congrArg Prod.fst heq
      have hbuf : buf = buf0 := congrArg Prod.snd heq
      subst hk
      subst hbuf
      by_cases hlen : 0 < buf.length
      · simp only [flushDict, if_pos hlen]
        constructor
        · by_cases hup : (lookupA k hwm).getD 0 <
              (flushStream c ((lookupA k hwm).getD 0) buf).2
          · rw [if_pos hup, flushDict_lookup_of_not_mem c rest _ k hnd0,
              lookupA_upsertA_self, if_pos ⟨hlen, hup⟩]
          · rw [if_neg hup, flushDict_lookup_of_not_mem c rest _ k hnd0,
              if_neg (fun hc => hup hc.2)]
        · intro e
          simp only [List.mem_append]
          constructor
          · intro hin
            rcases hin with hbatch | hr
            · simp only [List.mem_map] at hbatch
              obtain ⟨x, hx, hxe⟩ := hbatch
              have hxe2 : x = e := congrArg Prod.snd hxe
              subst hxe2
              exact mem_flushStream_iff.mp hx
            · exact absurd (flushDict_mem_key c rest _ k e hr) hnd0
          · intro hin
            exact Or.inl (by
              simp only [List.mem_map]
              exact ⟨e, mem_flushStream_iff.mpr hin, rfl⟩)
      · simp only [flushDict, if_neg hlen]
        have hbuf0 : buf = [] := List.length_eq_zero.mp (by omega)
        constructor
        · rw [flushDict_lookup_of_not_mem c rest _ k hnd0,
            if_neg (fun hc => hlen hc.1)]
        · intro e
          constructor
          · intro hr
            exact absurd (flushDict_mem_key c rest _ k e hr) hnd0
          · intro hin
            rw [hbuf0] at hin
            simp at hin
    · -- the claimed stream lies in the tail of the dict
      have hkk0 : k ≠ k0 := by
        intro h
        exact hnd0 (h ▸ mem_keysOf_of_mem hrest)
      by_cases hlen : 0 < buf0.length
      · simp only [flushDict, if_pos hlen]
        by_cases hup : (lookupA k0 hwm).getD 0 <
            (flushStream c ((lookupA k0 hwm).getD 0) buf0).2
        · rw [if_pos hup]
          have hpre := ih (upsertA k0 (flushStream c ((lookupA k0 hwm).getD 0) buf0).2 hwm)
            k buf hrest hndr
          rw [lookupA_upsertA_ne _ _ hkk0] at hpre
          refine ⟨hpre.1, fun e => ?_⟩
          rw [← hpre.2 e]
          simp only [List.mem_append, List.mem_map]
          constructor
          · intro hin
            rcases hin with ⟨x, _, hx⟩ | hr
            · exact absurd (congrArg Prod.fst hx) (fun h => hkk0 h.symm)
            · exact hr
          · exact Or.inr
        · rw [if_neg hup]
          have hpre := ih hwm k buf hrest hndr
          refine ⟨hpre.1, fun e => ?_⟩
          rw [← hpre.2 e]
          simp only [List.mem_append, List.mem_map]
          constructor
          · intro hin
            rcases hin with ⟨x, _, hx⟩ | hr
            · exact absurd (congrArg Prod.fst hx) (fun h => hkk0 h.symm)
            · exact hr
          · exact Or.inr
      · simp only [flushDict, if_neg hlen]
        exact ih hwm k buf hrest hndr

/-! Helper lemmas about the bounded deque and repeated recording. -/

theorem dequeAppend_drop (B : Nat) (l : List Entry) (e : Entry) :
    dequeAppend B (l.drop (l.length - B)) e = (l ++ [e]).drop ((l.length + 1) - B) := by
  unfold dequeAppend
  rw [← List.drop_append_of_le_length (show l.length - B ≤ l.length by omega),
    List.drop_drop]
  congr 1
  simp only [List.length_drop]
  omega

theorem foldl_dequeAppend_eq_drop (B : Nat) (l : List Entry) :
    l.foldl (dequeAppend B) [] = l.drop (l.length - B) := by
  induction l using List.reverseRecOn with
  | nil => simp
  | append_singleton l e ih =>
    rw [List.foldl_append, List.foldl_cons, List.foldl_nil, ih, dequeAppend_drop]
    simp

theorem dequeAppend_at_capacity {B : Nat} {l : List Entry} (e : Entry)
    (hlen : l.length = B) (hB : 0 < B) : dequeAppend B l e = l.drop 1 ++ [e] := by
  unfold dequeAppend
  have h1 : l.length + 1 - B = 1 := by omega
  rw [h1, List.drop_append_of_le_length (by omega)]

theorem dequeDropped_eq_nil {B : Nat} {l : List Entry} (e : Entry) (hlt : l.length < B) :
    dequeDropped B l e = [] := by
  unfold dequeDropped
  have h0 : l.length + 1 - B = 0 := by omega
  rw [h0, List.take_zero]

theorem dequeDropped_at_capacity {B : Nat} {l : List Entry} (e : Entry)
    (hlen : l.length = B) (hB : 0 < B) : dequeDropped B l e = l.take 1 := by
  unfold dequeDropped
  have h1 : l.length + 1 - B = 1 := by omega
  rw [h1, List.take_append_of_le_length (by omega)]

theorem recordDockerAll_lookup (container_name : String) (es : List Entry) :
    ∀ (h : MetricsHistory) (b0 : List Entry),
      lookupA container_name h.docker_buffer = some b0 →
      lookupA container_name (recordDockerAll h container_name es).docker_buffer =
        some (es.foldl (dequeAppend h.buffer_size) b0) ∧
      (recordDockerAll h container_name es).buffer_size = h.buffer_size := by
  induction es with
  | nil => intro h b0 hl; exact ⟨hl, rfl⟩
  | cons e tl ih =>
    intro h b0 hl
    have hstep : lookupA container_name
        (h.add_docker_metric container_name e.data e.timestamp).docker_buffer =
        some (dequeAppend h.buffer_size b0 e) := by
      simp only [MetricsHistory.add_docker_metric, hl, Option.getD_some]
      exact lookupA_upsertA_self _ _ _
    have hbs : (h.add_docker_metric container_name e.data e.timestamp).buffer_size =
        h.buffer_size := rfl
    have := ih (h.add_docker_metric container_name e.data e.timestamp)
      (dequeAppend h.buffer_size b0 e) hstep
    rw [hbs] at this
    exact this

theorem recordMetricAll_lookup (metric_type : String) (es : List Entry) :
    ∀ (h : MetricsHistory) (b0 : List Entry),
      lookupA metric_type h.metrics_buffer = some b0 →
      lookupA metric_type (recordMetricAll h metric_type es).metrics_buffer =
        some (es.foldl (dequeAppend h.buffer_size) b0) ∧
      (recordMetricAll h metric_type es).buffer_size = h.buffer_size := by
  induction es with
  | nil => intro h b0 hl; exact ⟨hl, rfl⟩
  | cons e tl ih =>
    intro h b0 hl
    have hstep : lookupA metric_type
        (h.add_metric metric_type e.data e.timestamp).metrics_buffer =
        some (dequeAppend h.buffer_size b0 e) := by
      simp only [MetricsHistory.add_metric, hl]
      exact lookupA_upsertA_self _ _ _
    have hbs : (h.add_metric metric_type e.data e.timestamp).buffer_size =
        h.buffer_size := by
      simp only [MetricsHistory.add_metric, hl]
    have := ih (h.add_metric metric_type e.data e.timestamp)
      (dequeAppend h.buffer_size b0 e) hstep
    rw [hbs] at this
    exact this

theorem flushDict_inserted_le_hwm {c : Int} {bufs : List (String × List Entry)}
    {hwm : List (String × Int)} {k : String} {e : Entry}
    (hnd : (keysOf bufs).Nodup) (hmem : (k, e) ∈ (flushDict c hwm bufs).2) :
    e.timestamp ≤ (lookupA k (flushDict c hwm bufs).1).getD 0 := by
  have hkey := flushDict_mem_key c bufs hwm k e hmem
  obtain ⟨buf, hbuf⟩ := mem_of_mem_keysOf hkey
  have hspec := flushDict_key_spec c bufs hwm k buf hbuf hnd
  have hqual := (hspec.2 e).mp hmem
  have hin : e ∈ (flushStream c ((lookupA k hwm).getD 0) buf).1 :=
    mem_flushStream_iff.mpr hqual
  have hmax := flushStream_max_le_of_mem hin
  have hup : (lookupA k hwm).getD 0 < (flushStream c ((lookupA k hwm).getD 0) buf).2 :=
    lt_of_lt_of_le hqual.2.2 hmax
  have hlen : 0 < buf.length := List.length_pos.mpr (List.ne_nil_of_mem hqual.1)
  rw [hspec.1, if_pos ⟨hlen, hup⟩]
  exact hmax

theorem flush_to_database_not_throttled {h : MetricsHistory} {now : Int}
    (hrun : h.flush_interval ≤ now - h.last_flush) :
    h.flush_to_database now =
      ⟨{ h with
          last_flushed_timestamp :=
            (flushDict (now - 5 * 60) h.last_flushed_timestamp h.metrics_buffer).1
          last_flushed_docker_timestamp :=
            (flushDict (now - 5 * 60) h.last_flushed_docker_timestamp h.docker_buffer).1
          last_flush := now },
        (flushDict (now - 5 * 60) h.last_flushed_timestamp h.metrics_buffer).2,
        (flushDict (now - 5 * 60) h.last_flushed_docker_timestamp h.docker_buffer).2⟩ := by
  simp only [MetricsHistory.flush_to_database, if_neg (not_lt.mpr hrun)]

theorem flush_to_database_throttled {h : MetricsHistory} {now : Int}
    (hth : now - h.last_flush < h.flush_interval) :
    h.flush_to_database now = ⟨h, [], []⟩ := by
  simp only [MetricsHistory.flush_to_database, if_pos hth]

/-! Claim theorems. -/

/-- C1: in any non-throttled flush run, for every stream (system or
docker) and every entry present in that stream's buffer at the start of
the run, the entry is inserted into the database during the run iff
`last_flushed < entry.timestamp < flush_cutoff`, where `last_flushed` is
the stream's high-water mark at the start of the run (0 for a stream with
no mark) and `flush_cutoff = now - 5 minutes`; both bounds strict. -/
theorem flush_inserts_iff_between_hwm_and_cutoff
    (h : MetricsHistory) (now : Int)
    (hrun : h.flush_interval ≤ now - h.last_flush)
    (hndm : (keysOf h.metrics_buffer).Nodup)
    (hndd : (keysOf h.docker_buffer).Nodup)
    (k : String) (buf : List Entry) (e : Entry) :
    ((k, buf) ∈ h.metrics_buffer →
      ((k, e) ∈ (h.flush_to_database now).inserted_metrics ↔
        e ∈ buf ∧ (lookupA k h.last_flushed_timestamp).getD 0 < e.timestamp ∧
          e.timestamp < now - 5 * 60)) ∧
    ((k, buf) ∈ h.docker_buffer →
      ((k, e) ∈ (h.flush_to_database now).inserted_docker ↔
        e ∈ buf ∧ (lookupA k h.last_flushed_docker_timestamp).getD 0 < e.timestamp ∧
          e.timestamp < now - 5 * 60)) := by
  rw [flush_to_database_not_throttled hrun]
  constructor
  · intro hmem
    have hspec := flushDict_key_spec (now - 5 * 60) h.metrics_buffer
      h.last_flushed_timestamp k buf hmem hndm
    rw [hspec.2 e]
    tauto
  · intro hmem
    have hspec := flushDict_key_spec (now - 5 * 60) h.docker_buffer
      h.last_flushed_docker_timestamp k buf hmem hndd
    rw [hspec.2 e]
    tauto

/-- Witness for C1 at a concrete state: the cpu sample at timestamp 500
is in the two-sided flush window of a run at time 1100 and is inserted. -/
theorem flush_inserts_iff_between_hwm_and_cutoff_w :
    (sampleH.flush_interval ≤ 1100 - sampleH.last_flush ∧
      (keysOf sampleH.metrics_buffer).Nodup ∧ (keysOf sampleH.docker_buffer).Nodup ∧
      ("cpu", [Entry.mk 500 7]) ∈ sampleH.metrics_buffer) ∧
    (("cpu", Entry.mk 500 7) ∈ (sampleH.flush_to_database 1100).inserted_metrics ↔
      Entry.mk 500 7 ∈ [Entry.mk 500 7] ∧
        (lookupA "cpu" sampleH.last_flushed_timestamp).getD 0 < 500 ∧
        (500 : Int) < 1100 - 5 * 60) :=
  ⟨⟨by decide, by decide, by decide, by decide⟩,
    (flush_inserts_iff_between_hwm_and_cutoff sampleH 1100 (by decide) (by decide)
      (by decide) "cpu" [Entry.mk 500 7] (Entry.mk 500 7)).1 (by decide)⟩

/-- C2: flushing is idempotent. After a non-throttled flush run at time
`now1`, a second run invoked in immediate succession (before another full
flush interval has elapsed) inserts no row at all, and a second run at any
later time `now2` inserts no row that the first run already inserted — no
entry is persisted twice. -/
theorem flush_idempotent (h : MetricsHistory) (now1 now2 : Int)
    (hndm : (keysOf h.metrics_buffer).Nodup)
    (hndd : (keysOf h.docker_buffer).Nodup)
    (hrun : h.flush_interval ≤ now1 - h.last_flush) :
    (now2 - now1 < h.flush_interval →
      ((h.flush_to_database now1).state.flush_to_database now2).inserted_metrics = [] ∧
      ((h.flush_to_database now1).state.flush_to_database now2).inserted_docker = []) ∧
    (∀ r ∈ ((h.flush_to_database now1).state.flush_to_database now2).inserted_metrics,
      r ∉ (h.flush_to_database now1).inserted_metrics) ∧
    (∀ r ∈ ((h.flush_to_database now1).state.flush_to_database now2).inserted_docker,
      r ∉ (h.flush_to_database now1).inserted_docker) := by
  rw [flush_to_database_not_throttled hrun]
  refine ⟨fun hth => ?_, ?_, ?_⟩
  · rw [flush_to_database_throttled hth]
    exact ⟨rfl, rfl⟩
  · intro r hr2 hr1
    obtain ⟨k, e⟩ := r
    by_cases hth : now2 -
        ({ h with
            last_flushed_timestamp :=
              (flushDict (now1 - 5 * 60) h.last_flushed_timestamp h.metrics_buffer).1
            last_flushed_docker_timestamp :=
              (flushDict (now1 - 5 * 60) h.last_flushed_docker_timestamp h.docker_buffer).1
            last_flush := now1 } : MetricsHistory).last_flush <
        ({ h with
            last_flushed_timestamp :=
              (flushDict (now1 - 5 * 60) h.last_flushed_timestamp h.metrics_buffer).1
            last_flushed_docker_timestamp :=
              (flushDict (now1 - 5 * 60) h.last_flushed_docker_timestamp h.docker_buffer).1
            last_flush := now1 } : MetricsHistory).flush_interval
    · rw [flush_to_database_throttled hth] at hr2
      simp at hr2
    · rw [flush_to_database_not_throttled (not_lt.mp hth)] at hr2
      have hkey := flushDict_mem_key (now2 - 5 * 60) h.metrics_buffer _ k e hr2
      obtain ⟨buf, hbuf⟩ := mem_of_mem_keysOf hkey
      have hspec := flushDict_key_spec (now2 - 5 * 60) h.metrics_buffer
        (flushDict (now1 - 5 * 60) h.last_flushed_timestamp h.metrics_buffer).1
        k buf hbuf hndm
      have hqual := (hspec.2 e).mp hr2
      have hle := flushDict_inserted_le_hwm hndm hr1
      exact absurd hqual.2.2 (not_lt.mpr hle)
  · intro r hr2 hr1
    obtain ⟨k, e⟩ := r
    by_cases hth : now2 -
        ({ h with
            last_flushed_timestamp :=
              (flushDict (now1 - 5 * 60) h.last_flushed_timestamp h.metrics_buffer).1
            last_flushed_docker_timestamp :=
              (flushDict (now1 - 5 * 60) h.last_flushed_docker_timestamp h.docker_buffer).1
            last_flush := now1 } : MetricsHistory).last_flush <
        ({ h with
            last_flushed_timestamp :=
              (flushDict (now1 - 5 * 60) h.last_flushed_timestamp h.metrics_buffer).1
            last_flushed_docker_timestamp :=
              (flushDict (now1 - 5 * 60) h.last_flushed_docker_timestamp h.docker_buffer).1
            last_flush := now1 } : MetricsHistory).flush_interval
    · rw [flush_to_database_throttled hth] at hr2
      simp at hr2
    · rw [flush_to_database_not_throttled (not_lt.mp hth)] at hr2
      have hkey := flushDict_mem_key (now2 - 5 * 60) h.docker_buffer _ k e hr2
      obtain ⟨buf, hbuf⟩ := mem_of_mem_keysOf hkey
      have hspec := flushDict_key_spec (now2 - 5 * 60) h.docker_buffer
        (flushDict (now1 - 5 * 60) h.last_flushed_docker_timestamp h.docker_buffer).1
        k buf hbuf hndd
      have hqual := (hspec.2 e).mp hr2
      have hle := flushDict_inserted_le_hwm hndd hr1
      exact absurd hqual.2.2 (not_lt.mpr hle)

/-- Witness for C2 at a concrete state: after flushing `sampleH` at time
1100, an immediately following run at 1130 inserts nothing. -/
theorem flush_idempotent_w :
    ((keysOf sampleH.metrics_buffer).Nodup ∧ (keysOf sampleH.docker_buffer).Nodup ∧
      sampleH.flush_interval ≤ 1100 - sampleH.last_flush ∧
      (1130 : Int) - 1100 < sampleH.flush_interval) ∧
    ((sampleH.flush_to_database 1100).state.flush_to_database 1130).inserted_metrics = [] ∧
    ((sampleH.flush_to_database 1100).state.flush_to_database 1130).inserted_docker = [] :=
  ⟨⟨by decide, by decide, by decide, by decide⟩,
    (flush_idempotent sampleH 1100 1130 (by decide) (by decide) (by decide)).1 (by decide)⟩

/-- C4: per-stream high-water marks never decrease under any operation —
the recording operations do not touch them at all and a flush can only
raise them — and whenever a flush changes a stream's mark, the new mark is
the maximum timestamp actually inserted for that stream in that run (it is
never advanced past a timestamp actually persisted). -/
theorem hwm_monotone_and_equals_max_flushed :
    (∀ (h : MetricsHistory) (mt : String) (d : Nat) (ts : Int),
      (h.add_metric mt d ts).last_flushed_timestamp = h.last_flushed_timestamp ∧
      (h.add_metric mt d ts).last_flushed_docker_timestamp =
        h.last_flushed_docker_timestamp) ∧
    (∀ (h : MetricsHistory) (name : String) (d : Nat) (ts : Int),
      (h.add_docker_metric name d ts).last_flushed_timestamp = h.last_flushed_timestamp ∧
      (h.add_docker_metric name d ts).last_flushed_docker_timestamp =
        h.last_flushed_docker_timestamp) ∧
    (∀ (h : MetricsHistory) (now : Int) (k : String),
      (lookupA k h.last_flushed_timestamp).getD 0 ≤
        (lookupA k (h.flush_to_database now).state.last_flushed_timestamp).getD 0 ∧
      (lookupA k h.last_flushed_docker_timestamp).getD 0 ≤
        (lookupA k (h.flush_to_database now).state.last_flushed_docker_timestamp).getD 0) ∧
    (∀ (h : MetricsHistory) (now : Int) (k : String),
      (keysOf h.metrics_buffer).Nodup →
      lookupA k (h.flush_to_database now).state.last_flushed_timestamp ≠
        lookupA k h.last_flushed_timestamp →
      (∃ e, (k, e) ∈ (h.flush_to_database now).inserted_metrics ∧
        e.timestamp =
          (lookupA k (h.flush_to_database now).state.last_flushed_timestamp).getD 0) ∧
      (∀ e, (k, e) ∈ (h.flush_to_database now).inserted_metrics →
        e.timestamp ≤
          (lookupA k (h.flush_to_database now).state.last_flushed_timestamp).getD 0)) ∧
    (∀ (h : MetricsHistory) (now : Int) (k : String),
      (keysOf h.docker_buffer).Nodup →
      lookupA k (h.flush_to_database now).state.last_flushed_docker_timestamp ≠
        lookupA k h.last_flushed_docker_timestamp →
      (∃ e, (k, e) ∈ (h.flush_to_database now).inserted_docker ∧
        e.timestamp =
          (lookupA k (h.flush_to_database now).state.last_flushed_docker_timestamp).getD 0) ∧
      (∀ e, (k, e) ∈ (h.flush_to_database now).inserted_docker →
        e.timestamp ≤
          (lookupA k (h.flush_to_database now).state.last_flushed_docker_timestamp).getD 0)) := by
  refine ⟨?_, ?_, ?_, ?_, ?_⟩
  · intro h mt d ts
    cases hl : lookupA mt h.metrics_buffer <;> simp [MetricsHistory.add_metric, hl]
  · intro h name d ts
    simp [MetricsHistory.add_docker_metric]
  · intro h now k
    by_cases hth : now - h.last_flush < h.flush_interval
    · rw [flush_to_database_throttled hth]
      exact ⟨le_refl _, le_refl _⟩
    · rw [flush_to_database_not_throttled (not_lt.mp hth)]
      exact ⟨flushDict_hwm_mono _ _ _ _, flushDict_hwm_mono _ _ _ _⟩
  · intro h now k hnd hch
    by_cases hth : now - h.last_flush < h.flush_interval
    · rw [flush_to_database_throttled hth] at hch
      exact absurd rfl hch
    · rw [flush_to_database_not_throttled (not_lt.mp hth)] at hch ⊢
      by_cases hkey : k ∈ keysOf h.metrics_buffer
      · obtain ⟨buf, hbuf⟩ := mem_of_mem_keysOf hkey
        have hspec := flushDict_key_spec (now - 5 * 60) h.metrics_buffer
          h.last_flushed_timestamp k buf hbuf hnd
        by_cases hcond : 0 < buf.length ∧ (lookupA k h.last_flushed_timestamp).getD 0 <
            (flushStream (now - 5 * 60) ((lookupA k h.last_flushed_timestamp).getD 0) buf).2
        · rw [hspec.1, if_pos hcond]
          obtain ⟨e, hemem, hets⟩ := flushStream_max_mem hcond.2
          have hq := mem_flushStream_iff.mp hemem
          refine ⟨⟨e, (hspec.2 e).mpr ⟨hq.1, hq.2.1, hq.2.2⟩, by simp [hets]⟩, ?_⟩
          intro e2 he2
          have hq2 := (hspec.2 e2).mp he2
          have : e2 ∈ (flushStream (now - 5 * 60)
              ((lookupA k h.last_flushed_timestamp).getD 0) buf).1 :=
            mem_flushStream_iff.mpr ⟨hq2.1, hq2.2.1, hq2.2.2⟩
          simpa using flushStream_max_le_of_mem this
        · rw [hspec.1, if_neg hcond] at hch
          exact absurd rfl hch
      · rw [flushDict_lookup_of_not_mem _ _ _ _ hkey] at hch
        exact absurd rfl hch
  · intro h now k hnd hch
    by_cases hth : now - h.last_flush < h.flush_interval
    · rw [flush_to_database_throttled hth] at hch
      exact absurd rfl hch
    · rw [flush_to_database_not_throttled (not_lt.mp hth)] at hch ⊢
      by_cases hkey : k ∈ keysOf h.docker_buffer
      · obtain ⟨buf, hbuf⟩ := mem_of_mem_keysOf hkey
        have hspec := flushDict_key_spec (now - 5 * 60) h.docker_buffer
          h.last_flushed_docker_timestamp k buf hbuf hnd
        by_cases hcond : 0 < buf.length ∧
            (lookupA k h.last_flushed_docker_timestamp).getD 0 <
            (flushStream (now - 5 * 60)
              ((lookupA k h.last_flushed_docker_timestamp).getD 0) buf).2
        · rw [hspec.1, if_pos hcond]
          obtain ⟨e, hemem, hets⟩ := flushStream_max_mem hcond.2
          have hq := mem_flushStream_iff.mp hemem
          refine ⟨⟨e, (hspec.2 e).mpr ⟨hq.1, hq.2.1, hq.2.2⟩, by simp [hets]⟩, ?_⟩
          intro e2 he2
          have hq2 := (hspec.2 e2).mp he2
          have : e2 ∈ (flushStream (now - 5 * 60)
              ((lookupA k h.last_flushed_docker_timestamp).getD 0) buf).1 :=
            mem_flushStream_iff.mpr ⟨hq2.1, hq2.2.1, hq2.2.2⟩
          simpa using flushStream_max_le_of_mem this
        · rw [hspec.1, if_neg hcond] at hch
          exact absurd rfl hch
      · rw [flushDict_lookup_of_not_mem _ _ _ _ hkey] at hch
        exact absurd rfl hch

/-- Witness for C4 at a concrete state: flushing `sampleH` at time 1100
changes the cpu high-water mark, and the new mark (500) is the timestamp
of an inserted row. -/
theorem hwm_monotone_and_equals_max_flushed_w :
    ((keysOf sampleH.metrics_buffer).Nodup ∧
      lookupA "cpu" (sampleH.flush_to_database 1100).state.last_flushed_timestamp ≠
        lookupA "cpu" sampleH.last_flushed_timestamp) ∧
    (∃ e, ("cpu", e) ∈ (sampleH.flush_to_database 1100).inserted_metrics ∧
      e.timestamp =
        (lookupA "cpu" (sampleH.flush_to_database 1100).state.last_flushed_timestamp).getD 0) :=
  ⟨⟨by decide, by decide⟩,
    (hwm_monotone_and_equals_max_flushed.2.2.2.1 sampleH 1100 "cpu"
      (by decide) (by decide)).1⟩

/-- C5: after a sequence of record calls longer than the capacity C on
one stream (dynamic docker stream, or any of the five fixed system
streams), the buffer holds exactly the C most recently recorded entries
in insertion order, and each append at capacity evicts exactly the
oldest entry (FIFO). -/
theorem buffer_keeps_last_C_entries (B : Nat) (t0 : Int) (name : String)
    (es : List Entry) (hN : B < es.length) :
    (lookupA name (recordDockerAll (MetricsHistory.init B t0) name es).docker_buffer =
      some (es.drop (es.length - B)) ∧
     (es.drop (es.length - B)).length = B) ∧
    (∀ mt, mt ∈ (["cpu", "memory", "disk", "temperature", "network"] : List String) →
      lookupA mt (recordMetricAll (MetricsHistory.init B t0) mt es).metrics_buffer =
        some (es.drop (es.length - B))) ∧
    (∀ (buf : List Entry) (e : Entry), buf.length = B → 0 < B →
      dequeAppend B buf e = buf.drop 1 ++ [e] ∧ dequeDropped B buf e = buf.take 1) := by
  have hlen : (es.drop (es.length - B)).length = B := by
    rw [List.length_drop]
    omega
  refine ⟨?_, ?_, ?_⟩
  · obtain ⟨e, tl, rfl⟩ : ∃ e tl, es = e :: tl := by
      cases es with
      | nil => simp at hN
      | cons e tl => exact ⟨e, tl, rfl⟩
    have hstep : lookupA name
        ((MetricsHistory.init B t0).add_docker_metric name e.data e.timestamp).docker_buffer =
        some (dequeAppend B [] e) := by
      show lookupA name (upsertA name
        (dequeAppend (MetricsHistory.init B t0).buffer_size
          ((lookupA name (MetricsHistory.init B t0).docker_buffer).getD [])
          ⟨e.timestamp, e.data⟩)
        (MetricsHistory.init B t0).docker_buffer) = some (dequeAppend B [] e)
      rw [lookupA_upsertA_self]
      rfl
    have hrec := (recordDockerAll_lookup name tl
      ((MetricsHistory.init B t0).add_docker_metric name e.data e.timestamp)
      (dequeAppend B [] e) hstep).1
    rw [show ((MetricsHistory.init B t0).add_docker_metric name e.data e.timestamp).buffer_size
        = B from rfl] at hrec
    have hfold : tl.foldl (dequeAppend B) (dequeAppend B [] e) =
        (e :: tl).foldl (dequeAppend B) [] := by
      rw [List.foldl_cons]
    refine ⟨?_, hlen⟩
    show lookupA name (recordDockerAll
      ((MetricsHistory.init B t0).add_docker_metric name e.data e.timestamp) name tl).docker_buffer =
      some ((e :: tl).drop ((e :: tl).length - B))
    rw [hrec, hfold, foldl_dequeAppend_eq_drop]
  · intro mt hmt
    have hsome : lookupA mt (MetricsHistory.init B t0).metrics_buffer = some [] := by
      simp only [List.mem_cons, List.mem_singleton] at hmt
      rcases hmt with rfl | rfl | rfl | rfl | rfl | hfalse
      · simp [MetricsHistory.init, lookupA]
      · simp [MetricsHistory.init, lookupA]
      · simp [MetricsHistory.init, lookupA]
      · simp [MetricsHistory.init, lookupA]
      · simp [MetricsHistory.init, lookupA]
      · simp at hfalse
    have hrec := (recordMetricAll_lookup mt es (MetricsHistory.init B t0) [] hsome).1
    rw [show (MetricsHistory.init B t0).buffer_size = B from rfl] at hrec
    rw [hrec, foldl_dequeAppend_eq_drop]
  · intro buf e hbuf hB
    exact ⟨dequeAppend_at_capacity e hbuf hB, dequeDropped_at_capacity e hbuf hB⟩

/-- Witness for C5: capacity 2, three records — the buffer keeps the last
two entries. -/
theorem buffer_keeps_last_C_entries_w :
    2 < ([Entry.mk 1 0, Entry.mk 2 0, Entry.mk 3 0] : List Entry).length ∧
    lookupA "web" (recordDockerAll (MetricsHistory.init 2 0) "web"
        [Entry.mk 1 0, Entry.mk 2 0, Entry.mk 3 0]).docker_buffer =
      some ([Entry.mk 1 0, Entry.mk 2 0, Entry.mk 3 0].drop
        (([Entry.mk 1 0, Entry.mk 2 0, Entry.mk 3 0] : List Entry).length - 2)) :=
  ⟨by decide,
    (buffer_keeps_last_C_entries 2 0 "web"
      [Entry.mk 1 0, Entry.mk 2 0, Entry.mk 3 0] (by decide)).1.1⟩

/-- C6 counterexample: with caller-supplied out-of-order timestamps (100
then 50, both inside the window), `get_recent_metrics` returns the buffer
in insertion order, which is not ascending time order — refuting the
claim's "in ascending time order ... including for arbitrary
caller-supplied (possibly out-of-order) timestamps". -/
theorem recent_not_ascending_counterexample :
    (((MetricsHistory.init 450 1000).add_metric "cpu" 1 100).add_metric "cpu" 2 50).get_recent_metrics
        "cpu" 120 2 = [Entry.mk 100 1, Entry.mk 50 2] ∧
    ¬ List.Pairwise tsLE
      ((((MetricsHistory.init 450 1000).add_metric "cpu" 1 100).add_metric "cpu" 2 50).get_recent_metrics
        "cpu" 120 2) := by
  constructor
  · decide
  · intro hp
    rw [show (((MetricsHistory.init 450 1000).add_metric "cpu" 1 100).add_metric "cpu" 2 50).get_recent_metrics
        "cpu" 120 2 = [Entry.mk 100 1, Entry.mk 50 2] from by decide] at hp
    have := List.rel_of_pairwise_cons hp (List.mem_singleton.mpr rfl)
    exact absurd this (by decide)

/-- C6 (amended): `get_recent_metrics` / `get_recent_docker_metrics`
return exactly the buffered entries with `timestamp >= now - minutes`, in
buffer (insertion) order — hence in ascending time order whenever the
buffer itself is time-ordered, which holds in normal operation but not
for arbitrary caller-supplied timestamps — and return the empty list for
a stream unknown to the buffer. -/
theorem recent_filters_buffer (h : MetricsHistory) (k : String) (now minutes : Int) :
    ((lookupA k h.metrics_buffer = none → h.get_recent_metrics k now minutes = []) ∧
     (∀ buf, lookupA k h.metrics_buffer = some buf →
       h.get_recent_metrics k now minutes =
         buf.filter (fun e => now - minutes * 60 ≤ e.timestamp) ∧
       (List.Pairwise tsLE buf →
         List.Pairwise tsLE (h.get_recent_metrics k now minutes)))) ∧
    ((lookupA k h.docker_buffer = none → h.get_recent_docker_metrics k now minutes = []) ∧
     (∀ buf, lookupA k h.docker_buffer = some buf →
       h.get_recent_docker_metrics k now minutes =
         buf.filter (fun e => now - minutes * 60 ≤ e.timestamp) ∧
       (List.Pairwise tsLE buf →
         List.Pairwise tsLE (h.get_recent_docker_metrics k now minutes)))) := by
  constructor
  · constructor
    · intro hl
      simp [MetricsHistory.get_recent_metrics, hl]
    · intro buf hl
      have heq : h.get_recent_metrics k now minutes =
          buf.filter (fun e => now - minutes * 60 ≤ e.timestamp) := by
        simp [MetricsHistory.get_recent_metrics, hl]
      refine ⟨heq, fun hp => ?_⟩
      rw [heq]
      exact List.Pairwise.sublist (List.filter_sublist _) hp
  · constructor
    · intro hl
      simp [MetricsHistory.get_recent_docker_metrics, hl]
    · intro buf hl
      have heq : h.get_recent_docker_metrics k now minutes =
          buf.filter (fun e => now - minutes * 60 ≤ e.timestamp) := by
        simp [MetricsHistory.get_recent_docker_metrics, hl]
      refine ⟨heq, fun hp => ?_⟩
      rw [heq]
      exact List.Pairwise.sublist (List.filter_sublist _) hp

/-- Witness for C6 (amended) at a concrete state: filtering semantics and
the unknown-stream case. -/
theorem recent_filters_buffer_w :
    (lookupA "cpu" sampleH.metrics_buffer = some [Entry.mk 500 7] ∧
      lookupA "ghost" sampleH.docker_buffer = none) ∧
    sampleH.get_recent_metrics "cpu" 520 1 =
      [Entry.mk 500 7].filter (fun e => (520 : Int) - 1 * 60 ≤ e.timestamp) ∧
    sampleH.get_recent_docker_metrics "ghost" 520 1 = [] :=
  ⟨⟨by decide, by decide⟩,
    ((recent_filters_buffer sampleH "cpu" 520 1).1.2 [Entry.mk 500 7] (by decide)).1,
    (recent_filters_buffer sampleH "ghost" 520 1).2.1 (by decide)⟩

theorem get_metrics_range_eq_nil {db : List MetricRow} {k : String} {s t : Int}
    (hnone : ∀ r ∈ db, r.metric_type ≠ k) : get_metrics_range db k s t = [] := by
  unfold get_metrics_range
  have hfil : db.filter (fun r =>
      decide (r.metric_type = k ∧ s ≤ r.timestamp ∧ r.timestamp ≤ t)) = [] := by
    rw [List.filter_eq_nil_iff]
    intro r hr
    simp [hnone r hr]
  rw [hfil]
  rfl

theorem get_docker_metrics_range_eq_nil {db : List DockerRow} {k : String} {s t : Int}
    (hnone : ∀ r ∈ db, r.container_name ≠ k) : get_docker_metrics_range db k s t = [] := by
  unfold get_docker_metrics_range
  have hfil : db.filter (fun r =>
      decide (r.container_name = k ∧ s ≤ r.timestamp ∧ r.timestamp ≤ t)) = [] := by
    rw [List.filter_eq_nil_iff]
    intro r hr
    simp [hnone r hr]
  rw [hfil]
  rfl

/-- C7: the historical query answers purely from the buffer when the
range is at most the in-memory threshold (15 minutes); otherwise it
returns the store's (ascending) rows for `[now - range, now]` with
exactly those last-5-minute buffer entries whose timestamp strictly
exceeds the store's latest returned timestamp appended at the tail,
returns the buffer entries alone when the store returned nothing and the
buffer has entries, and returns an empty sequence (not an error) for a
stream unknown to both tiers. Both the system-metric and the docker
variant are covered. -/
theorem historical_query_merges_tiers (h : MetricsHistory) (db : List MetricRow)
    (dbd : List DockerRow) (k : String) (range_minutes now : Int) :
    ((range_minutes ≤ 15 →
       h.get_historical_metrics db k range_minutes now =
         h.get_recent_metrics k now range_minutes) ∧
     (15 < range_minutes →
       (get_metrics_range db k (now - range_minutes * 60) now ≠ [] →
         h.get_recent_metrics k now 5 ≠ [] →
         h.get_historical_metrics db k range_minutes now =
           get_metrics_range db k (now - range_minutes * 60) now ++
             (h.get_recent_metrics k now 5).filter (fun e =>
               ((get_metrics_range db k (now - range_minutes * 60) now).getLastD
                   ⟨0, 0⟩).timestamp < e.timestamp)) ∧
       (get_metrics_range db k (now - range_minutes * 60) now = [] →
         h.get_recent_metrics k now 5 ≠ [] →
         h.get_historical_metrics db k range_minutes now = h.get_recent_metrics k now 5) ∧
       (h.get_recent_metrics k now 5 = [] →
         h.get_historical_metrics db k range_minutes now =
           get_metrics_range db k (now - range_minutes * 60) now)) ∧
     List.Pairwise tsLE (get_metrics_range db k (now - range_minutes * 60) now) ∧
     (lookupA k h.metrics_buffer = none → (∀ r ∈ db, r.metric_type ≠ k) →
       h.get_historical_metrics db k range_minutes now = [])) ∧
    ((range_minutes ≤ 15 →
       h.get_historical_docker_metrics dbd k range_minutes now =
         h.get_recent_docker_metrics k now range_minutes) ∧
     (15 < range_minutes →
       (get_docker_metrics_range dbd k (now - range_minutes * 60) now ≠ [] →
         h.get_recent_docker_metrics k now 5 ≠ [] →
         h.get_historical_docker_metrics dbd k range_minutes now =
           get_docker_metrics_range dbd k (now - range_minutes * 60) now ++
             (h.get_recent_docker_metrics k now 5).filter (fun e =>
               ((get_docker_metrics_range dbd k (now - range_minutes * 60) now).getLastD
                   ⟨0, 0⟩).timestamp < e.timestamp)) ∧
       (get_docker_metrics_range dbd k (now - range_minutes * 60) now = [] →
         h.get_recent_docker_metrics k now 5 ≠ [] →
         h.get_historical_docker_metrics dbd k range_minutes now =
           h.get_recent_docker_metrics k now 5) ∧
       (h.get_recent_docker_metrics k now 5 = [] →
         h.get_historical_docker_metrics dbd k range_minutes now =
           get_docker_metrics_range dbd k (now - range_minutes * 60) now)) ∧
     List.Pairwise tsLE (get_docker_metrics_range dbd k (now - range_minutes * 60) now) ∧
     (lookupA k h.docker_buffer = none → (∀ r ∈ dbd, r.container_name ≠ k) →
       h.get_historical_docker_metrics dbd k range_minutes now = [])) := by
  constructor
  · refine ⟨fun h15 => ?_, fun h15 => ⟨fun hdb hrb => ?_, fun hdb hrb => ?_, fun hrb => ?_⟩,
      ?_, fun hl hdb => ?_⟩
    · simp only [MetricsHistory.get_historical_metrics, if_pos h15]
    · have hcond : h.get_recent_metrics k now 5 ≠ [] ∧
          get_metrics_range db k (now - range_minutes * 60) now ≠ [] := ⟨hrb, hdb⟩
      simp only [MetricsHistory.get_historical_metrics, if_neg (not_le.mpr h15),
        if_pos hcond]
    · have hnc1 : ¬ (h.get_recent_metrics k now 5 ≠ [] ∧
          get_metrics_range db k (now - range_minutes * 60) now ≠ []) :=
        fun hc => hc.2 hdb
      have hcond : h.get_recent_metrics k now 5 ≠ [] ∧
          get_metrics_range db k (now - range_minutes * 60) now = [] := ⟨hrb, hdb⟩
      simp only [MetricsHistory.get_historical_metrics, if_neg (not_le.mpr h15),
        if_neg hnc1, if_pos hcond]
    · have hnc1 : ¬ (h.get_recent_metrics k now 5 ≠ [] ∧
          get_metrics_range db k (now - range_minutes * 60) now ≠ []) :=
        fun hc => hc.1 hrb
      have hnc2 : ¬ (h.get_recent_metrics k now 5 ≠ [] ∧
          get_metrics_range db k (now - range_minutes * 60) now = []) :=
        fun hc => hc.1 hrb
      simp only [MetricsHistory.get_historical_metrics, if_neg (not_le.mpr h15),
        if_neg hnc1, if_neg hnc2]
    · exact List.sorted_insertionSort tsLE _
    · have hrecent : ∀ m : Int, h.get_recent_metrics k now m = [] := by
        intro m
        simp [MetricsHistory.get_recent_metrics, hl]
      by_cases h15 : range_minutes ≤ 15
      · simp only [MetricsHistory.get_historical_metrics, if_pos h15]
        exact hrecent range_minutes
      · simp only [MetricsHistory.get_historical_metrics, if_neg h15]
        rw [get_metrics_range_eq_nil hdb, hrecent 5]
        simp
  · refine ⟨fun h15 => ?_, fun h15 => ⟨fun hdb hrb => ?_, fun hdb hrb => ?_, fun hrb => ?_⟩,
      ?_, fun hl hdb => ?_⟩
    · simp only [MetricsHistory.get_historical_docker_metrics, if_pos h15]
    · have hcond : h.get_recent_docker_metrics k now 5 ≠ [] ∧
          get_docker_metrics_range dbd k (now - range_minutes * 60) now ≠ [] := ⟨hrb, hdb⟩
      simp only [MetricsHistory.get_historical_docker_metrics, if_neg (not_le.mpr h15),
        if_pos hcond]
    · have hnc1 : ¬ (h.get_recent_docker_metrics k now 5 ≠ [] ∧
          get_docker_metrics_range dbd k (now - range_minutes * 60) now ≠ []) :=
        fun hc => hc.2 hdb
      have hcond : h.get_recent_docker_metrics k now 5 ≠ [] ∧
          get_docker_metrics_range dbd k (now - range_minutes * 60) now = [] := ⟨hrb, hdb⟩
      simp only [MetricsHistory.get_historical_docker_metrics, if_neg (not_le.mpr h15),
        if_neg hnc1, if_pos hcond]
    · have hnc1 : ¬ (h.get_recent_docker_metrics k now 5 ≠ [] ∧
          get_docker_metrics_range dbd k (now - range_minutes * 60) now ≠ []) :=
        fun hc => hc.1 hrb
      have hnc2 : ¬ (h.get_recent_docker_metrics k now 5 ≠ [] ∧
          get_docker_metrics_range dbd k (now - range_minutes * 60) now = []) :=
        fun hc => hc.1 hrb
      simp only [MetricsHistory.get_historical_docker_metrics, if_neg (not_le.mpr h15),
        if_neg hnc1, if_neg hnc2]
    · exact List.sorted_insertionSort tsLE _
    · have hrecent : ∀ m : Int, h.get_recent_docker_metrics k now m = [] := by
        intro m
        simp [MetricsHistory.get_recent_docker_metrics, hl]
      by_cases h15 : range_minutes ≤ 15
      · simp only [MetricsHistory.get_historical_docker_metrics, if_pos h15]
        exact hrecent range_minutes
      · simp only [MetricsHistory.get_historical_docker_metrics, if_neg h15]
        rw [get_docker_metrics_range_eq_nil hdb, hrecent 5]
        simp

/-- Witness for C7 at concrete inputs: a 60-minute query stitches one
fresh buffer entry (timestamp 3500) after the store row (timestamp 100);
the threshold case and the unknown-stream case are also instantiated. -/
theorem historical_query_merges_tiers_w :
    ((15 : Int) < 60 ∧
      get_metrics_range [MetricRow.mk 100 "cpu" 9] "cpu" (3600 - 60 * 60) 3600 ≠ [] ∧
      ((MetricsHistory.init 450 0).add_metric "cpu" 1 3500).get_recent_metrics "cpu" 3600 5 ≠ []) ∧
    ((MetricsHistory.init 450 0).add_metric "cpu" 1 3500).get_historical_metrics
        [MetricRow.mk 100 "cpu" 9] "cpu" 60 3600 =
      get_metrics_range [MetricRow.mk 100 "cpu" 9] "cpu" (3600 - 60 * 60) 3600 ++
        (((MetricsHistory.init 450 0).add_metric "cpu" 1 3500).get_recent_metrics
            "cpu" 3600 5).filter (fun e =>
          ((get_metrics_range [MetricRow.mk 100 "cpu" 9] "cpu" (3600 - 60 * 60) 3600).getLastD
              ⟨0, 0⟩).timestamp < e.timestamp) :=
  ⟨⟨by decide, by decide, by decide⟩,
    ((historical_query_merges_tiers ((MetricsHistory.init 450 0).add_metric "cpu" 1 3500)
      [MetricRow.mk 100 "cpu" 9] [] "cpu" 60 3600).1.2.1 (by decide)).1
      (by decide) (by decide)⟩

/-- C8: `cleanup_old_data` evaluated at a store holding one old system
metric row and no docker rows does delete the row, yet returns 0, because
the returned `cursor.rowcount` reflects only the second DELETE (the
`docker_metrics` table) — not the total number of records deleted, which
is 1 at this input. -/
theorem cleanup_returns_docker_count_only :
    cleanup_old_data [MetricRow.mk 0 "cpu" 0] [] 7 700000 =
      CleanupResult.mk [] [] 0 ∧ (1 : Nat) ≠ 0 := by
  constructor
  · decide
  · decide

/-- C9: classification of one service probe: 2xx yields healthy; a
non-2xx code `c` yields unhealthy with error `"HTTP c"`; timeout yields
unhealthy/"Timeout"; connection failure yields unhealthy/"Connection
refused"; any other transport fault yields unhealthy with the fault's
description; and `response_time_ms` is set iff the probe completed with a
response (it is `None` on timeout and connection failure). -/
theorem probe_outcome_classification :
    (∀ (name : String) (code : Nat) (ms : Int), 200 ≤ code → code < 300 →
      check_service_health name (.response code ms) = ⟨name, "healthy", some ms, none⟩) ∧
    (∀ (name : String) (code : Nat) (ms : Int), ¬ (200 ≤ code ∧ code < 300) →
      check_service_health name (.response code ms) =
        ⟨name, "unhealthy", some ms, some ("HTTP " ++ toString code)⟩) ∧
    (∀ name : String, check_service_health name .timeout =
      ⟨name, "unhealthy", none, some "Timeout"⟩) ∧
    (∀ name : String, check_service_health name .connectError =
      ⟨name, "unhealthy", none, some "Connection refused"⟩) ∧
    (∀ (name d : String), check_service_health name (.otherFault d) =
      ⟨name, "unhealthy", none, some d⟩) ∧
    (∀ (name : String) (o : ProbeOutcome),
      (check_service_health name o).response_time_ms ≠ none ↔
        ∃ code ms, o = .response code ms) := by
  refine ⟨?_, ?_, fun _ => rfl, fun _ => rfl, fun _ _ => rfl, ?_⟩
  · intro name code ms h1 h2
    simp [check_service_health, h1, h2]
  · intro name code ms hno
    simp [check_service_health, hno]
  · intro name o
    cases o with
    | response code ms =>
      constructor
      · intro _
        exact ⟨code, ms, rfl⟩
      · intro _
        by_cases hc : 200 ≤ code ∧ code < 300 <;> simp [check_service_health, hc]
    | timeout => simp [check_service_health]
    | connectError => simp [check_service_health]
    | otherFault d => simp [check_service_health]

/-- Witness for C9: a 204 response is healthy with its elapsed time
recorded; a 500 response is unhealthy with error "HTTP 500". -/
theorem probe_outcome_classification_w :
    ((200 ≤ 204 ∧ 204 < 300) ∧ ¬ (200 ≤ 500 ∧ 500 < 300)) ∧
    check_service_health "svc" (.response 204 12) = ⟨"svc", "healthy", some 12, none⟩ ∧
    check_service_health "svc" (.response 500 12) =
      ⟨"svc", "unhealthy", some 12, some ("HTTP " ++ toString 500)⟩ :=
  ⟨⟨⟨by decide, by decide⟩, by decide⟩,
    probe_outcome_classification.1 "svc" 204 12 (by decide) (by decide),
    probe_outcome_classification.2.1 "svc" 500 12 (by decide)⟩

/-- C10: a sample whose metric type is not a key of the (fixed,
init-time) metric-buffer dict is silently dropped: `add_metric` returns
the state unchanged and creates no stream; `add_metric` never adds a key;
only `add_docker_metric` creates a stream's sequence on first use. -/
theorem unknown_metric_type_dropped :
    (∀ (h : MetricsHistory) (mt : String) (d : Nat) (ts : Int),
      lookupA mt h.metrics_buffer = none → h.add_metric mt d ts = h) ∧
    (∀ (B : Nat) (t0 : Int),
      keysOf (MetricsHistory.init B t0).metrics_buffer =
        ["cpu", "memory", "disk", "temperature", "network"]) ∧
    (∀ (h : MetricsHistory) (mt : String) (d : Nat) (ts : Int),
      keysOf h.metrics_buffer = ["cpu", "memory", "disk", "temperature", "network"] →
      mt ∉ (["cpu", "memory", "disk", "temperature", "network"] : List String) →
      h.add_metric mt d ts = h) ∧
    (∀ (h : MetricsHistory) (mt : String) (d : Nat) (ts : Int),
      keysOf (h.add_metric mt d ts).metrics_buffer = keysOf h.metrics_buffer) ∧
    (∀ (h : MetricsHistory) (name : String) (d : Nat) (ts : Int),
      lookupA name h.docker_buffer = none → 0 < h.buffer_size →
      lookupA name (h.add_docker_metric name d ts).docker_buffer =
        some [Entry.mk ts d]) := by
  have h1 : ∀ (h : MetricsHistory) (mt : String) (d : Nat) (ts : Int),
      lookupA mt h.metrics_buffer = none → h.add_metric mt d ts = h := by
    intro h mt d ts hl
    simp [MetricsHistory.add_metric, hl]
  refine ⟨h1, fun B t0 => rfl, ?_, ?_, ?_⟩
  · intro h mt d ts hkeys hmt
    refine h1 h mt d ts ((lookupA_eq_none_iff mt h.metrics_buffer).mpr ?_)
    rw [hkeys]
    exact hmt
  · intro h mt d ts
    cases hl : lookupA mt h.metrics_buffer with
    | none => simp [MetricsHistory.add_metric, hl]
    | some buf =>
      have hkey : mt ∈ keysOf h.metrics_buffer := by
        by_contra hc
        rw [(lookupA_eq_none_iff mt h.metrics_buffer).mpr hc] at hl
        exact Option.noConfusion hl
      simp only [MetricsHistory.add_metric, hl]
      exact keysOf_upsertA_of_mem _ hkey
  · intro h2 name d ts hl hB
    show lookupA name (upsertA name
      (dequeAppend h2.buffer_size ((lookupA name h2.docker_buffer).getD []) ⟨ts, d⟩)
      h2.docker_buffer) = some [Entry.mk ts d]
    rw [lookupA_upsertA_self, hl]
    show some (dequeAppend h2.buffer_size [] ⟨ts, d⟩) = some [Entry.mk ts d]
    unfold dequeAppend
    have h0 : ([] : List Entry).length + 1 - h2.buffer_size = 0 := by
      simp only [List.length_nil]
      omega
    rw [h0]
    rfl

/-- Witness for C10: the unrecognized metric type "load" is dropped from
a freshly initialized history, and a docker record creates its stream. -/
theorem unknown_metric_type_dropped_w :
    (keysOf (MetricsHistory.init 450 0).metrics_buffer =
        ["cpu", "memory", "disk", "temperature", "network"] ∧
      "load" ∉ (["cpu", "memory", "disk", "temperature", "network"] : List String) ∧
      lookupA "web" (MetricsHistory.init 450 0).docker_buffer = none ∧
      0 < (MetricsHistory.init 450 0).buffer_size) ∧
    (MetricsHistory.init 450 0).add_metric "load" 5 99 = MetricsHistory.init 450 0 ∧
    lookupA "web" ((MetricsHistory.init 450 0).add_docker_metric "web" 5 99).docker_buffer =
      some [Entry.mk 99 5] :=
  ⟨⟨by decide, by decide, by decide, by decide⟩,
    unknown_metric_type_dropped.2.2.1 (MetricsHistory.init 450 0) "load" 5 99
      (by decide) (by decide),
    unknown_metric_type_dropped.2.2.2.2 (MetricsHistory.init 450 0) "web" 5 99
      (by decide) (by decide)⟩

/-! Helper lemmas for the capacity-planning trace (claim C3). -/

theorem recs_length (t0 p : Int) (n : Nat) : (recs t0 p n).length = n := by
  simp [recs]

theorem recs_succ (t0 p : Int) (n : Nat) :
    recs t0 p (n + 1) = recs t0 p n ++ [Entry.mk (t0 + n * p) 0] := by
  unfold recs
  rw [List.range_succ, List.map_append]
  rfl

theorem recs_getElem (t0 p : Int) {n j : Nat} (h : j < (recs t0 p n).length) :
    (recs t0 p n)[j] = Entry.mk (t0 + j * p) 0 := by
  simp [recs]

theorem mem_recs_drop {t0 p : Int} {m j : Nat} {e : Entry} :
    e ∈ (recs t0 p m).drop j ↔ ∃ k, j ≤ k ∧ k < m ∧ e = Entry.mk (t0 + k * p) 0 := by
  constructor
  · intro he
    obtain ⟨i, hi, hei⟩ := List.mem_iff_getElem.mp he
    have him : i < m - j := by simpa [recs] using hi
    have hval : ((recs t0 p m).drop j)[i] = Entry.mk (t0 + (j + i) * p) 0 := by
      rw [List.getElem_drop]
      exact recs_getElem t0 p (by simp [recs]; omega)
    refine ⟨j + i, by omega, by omega, ?_⟩
    rw [← hei, hval]
    norm_cast
  · rintro ⟨k, hjk, hkm, rfl⟩
    apply List.mem_iff_getElem.mpr
    refine ⟨k - j, by simp [recs]; omega, ?_⟩
    rw [List.getElem_drop]
    simp only [show j + (k - j) = k from by omega]
    exact recs_getElem t0 p (by simp [recs]; omega)

theorem flushDict_five (c : Int) (hwmMap : List (String × Int)) (b : List Entry)
    (hb : 0 < b.length) :
    flushDict c hwmMap
        [("cpu", b), ("memory", []), ("disk", []), ("temperature", []), ("network", [])] =
      (if (lookupA "cpu" hwmMap).getD 0 < (flushStream c ((lookupA "cpu" hwmMap).getD 0) b).2
        then upsertA "cpu" (flushStream c ((lookupA "cpu" hwmMap).getD 0) b).2 hwmMap
        else hwmMap,
       (flushStream c ((lookupA "cpu" hwmMap).getD 0) b).1.map (fun e => ("cpu", e))) := by
  by_cases hup : (lookupA "cpu" hwmMap).getD 0 <
      (flushStream c ((lookupA "cpu" hwmMap).getD 0) b).2
  · simp [flushDict, hb, hup]
  · simp [flushDict, hb, hup]

theorem iterAt_hist (s : TraceState) (t : Int) :
    (iterAt s t).hist = ((s.hist.add_metric "cpu" 0 t).flush_to_database t).state := rfl

theorem iterAt_inserted (s : TraceState) (t : Int) :
    (iterAt s t).inserted =
      s.inserted ++ ((s.hist.add_metric "cpu" 0 t).flush_to_database t).inserted_metrics := rfl

theorem iterAt_evicted (s : TraceState) (t : Int) :
    (iterAt s t).evicted =
      s.evicted ++ (dequeDropped s.hist.buffer_size
        ((lookupA "cpu" s.hist.metrics_buffer).getD []) ⟨t, 0⟩).map (fun e => ("cpu", e)) := rfl

theorem traceInv_zero (B : Nat) (t0 p : Int) (hp : 0 < p) :
    traceInv B t0 p 0 (runTrace B t0 p 0) := by
  unfold traceInv runTrace
  refine ⟨rfl, rfl, ?_, le_refl _, le_max_left _ _, ?_, Or.inr rfl, ?_, ?_, ?_⟩
  · simp [recs, MetricsHistory.init]
  · show t0 + ((0 : Nat) - 1 : Int) * p - t0 < 60
    push_cast
    linarith
  · intro e he
    simp [recs] at he
  · intro e he
    simp [recs] at he
  · intro r hr
    simp [MetricsHistory.init] at hr

theorem traceInv_step (B : Nat) (t0 p : Int) (hp : 0 < p) (ht0 : 300 < t0)
    (hB : 360 ≤ ((B : Int) - 1) * p) (n : Nat) (s : TraceState)
    (hinv : traceInv B t0 p n s) :
    traceInv B t0 p (n + 1) (iterAt s (t0 + n * p)) := by
  obtain ⟨hbs, hfi, hmb, hlf1, hlf2, hlf3, hhwm, hold, hcov, hevict⟩ := hinv
  have hB2 : 2 ≤ B := by
    by_contra hc
    push_neg at hc
    have hble : (B : Int) - 1 ≤ 0 := by
      have : (B : Int) ≤ 1 := by exact_mod_cast Nat.lt_succ_iff.mp hc
      linarith
    have hmul : ((B : Int) - 1) * p ≤ 0 * p :=
      mul_le_mul_of_nonneg_right hble (le_of_lt hp)
    simp at hmul
    linarith
  have hnp : (0 : Int) ≤ (n : Int) * p := mul_nonneg (by positivity) (le_of_lt hp)
  have hn1p : ((n : Int) - 1) * p ≤ (n : Int) * p := by
    have h1 : ((n : Int) - 1) ≤ (n : Int) := by linarith
    exact mul_le_mul_of_nonneg_right h1 (le_of_lt hp)
  have hlfTn : s.hist.last_flush ≤ t0 + n * p := by
    refine le_trans hlf2 (max_le (by linarith) (by linarith))
  have hhwmTn : (lookupA "cpu" s.hist.last_flushed_timestamp).getD 0 < t0 + n * p := by
    rcases hhwm with hle | h0
    · linarith
    · rw [h0]; linarith
  have hlook : lookupA "cpu" s.hist.metrics_buffer = some ((recs t0 p n).drop (n - B)) := by
    rw [hmb]
    simp [lookupA]
  have hrecs_len_drop : ((recs t0 p n).drop (n - B)).length = n - (n - B) := by
    simp [recs_length]
  have hnewb : dequeAppend B ((recs t0 p n).drop (n - B)) (Entry.mk (t0 + n * p) 0) =
      (recs t0 p (n + 1)).drop (n + 1 - B) := by
    have hd := dequeAppend_drop B (recs t0 p n) (Entry.mk (t0 + n * p) 0)
    rw [recs_length] at hd
    rw [hd, ← recs_succ]
  have hh1 : s.hist.add_metric "cpu" 0 (t0 + n * p) =
      { s.hist with metrics_buffer :=
        [("cpu", (recs t0 p (n + 1)).drop (n + 1 - B)), ("memory", []), ("disk", []),
         ("temperature", []), ("network", [])] } := by
    simp only [MetricsHistory.add_metric, hlook, hbs]
    rw [hmb]
    simp [upsertA]
    rw [hnewb]
  -- every entry the record step evicts was already inserted
  have hevnew : ∀ r ∈ (dequeDropped s.hist.buffer_size
      ((lookupA "cpu" s.hist.metrics_buffer).getD []) (Entry.mk (t0 + n * p) 0)).map
        (fun e => ("cpu", e)), r ∈ s.inserted := by
    intro r hr
    rw [hlook, hbs] at hr
    simp only [Option.getD_some] at hr
    by_cases hnB : n < B
    · rw [dequeDropped_eq_nil _ (by rw [hrecs_len_drop]; omega)] at hr
      simp at hr
    · have hBn : B ≤ n := le_of_not_lt hnB
      have hlenB : ((recs t0 p n).drop (n - B)).length = B := by rw [hrecs_len_drop]; omega
      rw [dequeDropped_at_capacity _ hlenB (by omega)] at hr
      have hdropc : (recs t0 p n).drop (n - B) =
          Entry.mk (t0 + ((n - B : Nat) : Int) * p) 0 :: (recs t0 p n).drop (n - B + 1) := by
        rw [List.drop_eq_getElem_cons (by rw [recs_length]; omega)]
        rw [recs_getElem t0 p (by rw [recs_length]; omega)]
      rw [hdropc] at hr
      simp only [List.take_succ_cons, List.take_zero, List.map_cons, List.map_nil,
        List.mem_singleton] at hr
      subst hr
      have he0mem : Entry.mk (t0 + ((n - B : Nat) : Int) * p) 0 ∈
          (recs t0 p n).drop (n - B) := by
        rw [hdropc]
        exact List.mem_cons_self _ _
      have hts : (Entry.mk (t0 + ((n - B : Nat) : Int) * p) 0).timestamp <
          s.hist.last_flush - 300 := by
        show t0 + ((n - B : Nat) : Int) * p < s.hist.last_flush - 300
        have hcast : ((n - B : Nat) : Int) = (n : Int) - (B : Int) := by
          push_cast [hBn]
          ring
        rw [hcast]
        have hsplit2 : t0 + ((n : Int) - B) * p =
            t0 + ((n : Int) - 1) * p - ((B : Int) - 1) * p := by ring
        rw [hsplit2]
        linarith
      exact hcov _ he0mem (hold _ he0mem hts)
  -- splitting membership in the new buffer into old entries and the new sample
  have hsplit : ∀ e ∈ (recs t0 p (n + 1)).drop (n + 1 - B),
      (e ∈ (recs t0 p n).drop (n - B) ∧ e.timestamp ≤ t0 + ((n : Int) - 1) * p) ∨
      e = Entry.mk (t0 + n * p) 0 := by
    intro e he
    obtain ⟨k, hk1, hk2, rfl⟩ := mem_recs_drop.mp he
    rcases Nat.lt_succ_iff_lt_or_eq.mp hk2 with hlt | heq
    · left
      refine ⟨mem_recs_drop.mpr ⟨k, by omega, hlt, rfl⟩, ?_⟩
      show t0 + (k : Int) * p ≤ t0 + ((n : Int) - 1) * p
      have hkle : (k : Int) ≤ (n : Int) - 1 := by
        have hkn : (k : Int) < (n : Int) := by exact_mod_cast hlt
        linarith
      have := mul_le_mul_of_nonneg_right hkle (le_of_lt hp)
      linarith
    · right
      rw [heq]
  by_cases hth : t0 + n * p - s.hist.last_flush < 60
  -- Case A: the flush attempt is throttled
  · have hth2 : t0 + n * p - (s.hist.add_metric "cpu" 0 (t0 + n * p)).last_flush <
        (s.hist.add_metric "cpu" 0 (t0 + n * p)).flush_interval := by
      rw [hh1]
      show t0 + n * p - s.hist.last_flush < s.hist.flush_interval
      rw [hfi]
      exact hth
    have hstate : (iterAt s (t0 + n * p)).hist = s.hist.add_metric "cpu" 0 (t0 + n * p) := by
      rw [iterAt_hist, flush_to_database_throttled hth2]
    have hins : (iterAt s (t0 + n * p)).inserted = s.inserted := by
      rw [iterAt_inserted, flush_to_database_throttled hth2]
      simp
    refine ⟨?_, ?_, ?_, ?_, ?_, ?_, ?_, ?_, ?_, ?_⟩
    · rw [hstate, hh1]
      exact hbs
    · rw [hstate, hh1]
      exact hfi
    · rw [hstate, hh1]
    · rw [hstate, hh1]
      exact hlf1
    · rw [hstate, hh1]
      show s.hist.last_flush ≤ max t0 (t0 + (((n : Nat) + 1 : Int) - 1) * p)
      refine le_trans hlfTn (le_trans ?_ (le_max_right _ _))
      linarith
    · rw [hstate, hh1]
      show t0 + (((n : Nat) + 1 : Int) - 1) * p - s.hist.last_flush < 60
      linarith
    · rw [hstate, hh1]
      exact hhwm
    · rw [hstate, hh1]
      show ∀ e ∈ (recs t0 p (n + 1)).drop (n + 1 - B),
        e.timestamp < s.hist.last_flush - 300 →
        e.timestamp ≤ (lookupA "cpu" s.hist.last_flushed_timestamp).getD 0
      intro e he hets
      rcases hsplit e he with ⟨hmem, _⟩ | rfl
      · exact hold e hmem hets
      · exact absurd hets (by show ¬ t0 + n * p < s.hist.last_flush - 300; linarith)
    · rw [hstate, hins, hh1]
      show ∀ e ∈ (recs t0 p (n + 1)).drop (n + 1 - B),
        e.timestamp ≤ (lookupA "cpu" s.hist.last_flushed_timestamp).getD 0 →
        ("cpu", e) ∈ s.inserted
      intro e he hets
      rcases hsplit e he with ⟨hmem, _⟩ | rfl
      · exact hcov e hmem hets
      · exact absurd hets (by
          show ¬ t0 + n * p ≤ (lookupA "cpu" s.hist.last_flushed_timestamp).getD 0
          linarith)
    · rw [iterAt_evicted, hins]
      intro r hr
      rcases List.mem_append.mp hr with hrold | hrnew
      · exact hevict r hrold
      · exact hevnew r hrnew
  -- Case B: the flush run is effective
  · have hrun : (s.hist.add_metric "cpu" 0 (t0 + n * p)).flush_interval ≤
        t0 + n * p - (s.hist.add_metric "cpu" 0 (t0 + n * p)).last_flush := by
      rw [hh1]
      show s.hist.flush_interval ≤ t0 + n * p - s.hist.last_flush
      rw [hfi]
      linarith [not_lt.mp hth]
    have hlen2 : 0 < ((recs t0 p (n + 1)).drop (n + 1 - B)).length := by
      simp only [List.length_drop, recs_length]
      omega
    have hM := flushDict_five (t0 + n * p - 5 * 60) s.hist.last_flushed_timestamp
      ((recs t0 p (n + 1)).drop (n + 1 - B)) hlen2
    have hmb2 : (iterAt s (t0 + n * p)).hist.metrics_buffer =
        [("cpu", (recs t0 p (n + 1)).drop (n + 1 - B)), ("memory", []), ("disk", []),
         ("temperature", []), ("network", [])] := by
      rw [iterAt_hist, flush_to_database_not_throttled hrun, hh1]
    have hbs2 : (iterAt s (t0 + n * p)).hist.buffer_size = B := by
      rw [iterAt_hist, flush_to_database_not_throttled hrun, hh1]
      exact hbs
    have hfi2 : (iterAt s (t0 + n * p)).hist.flush_interval = 60 := by
      rw [iterAt_hist, flush_to_database_not_throttled hrun, hh1]
      exact hfi
    have hlf2new : (iterAt s (t0 + n * p)).hist.last_flush = t0 + n * p := by
      rw [iterAt_hist, flush_to_database_not_throttled hrun]
    have hlfts2 : (iterAt s (t0 + n * p)).hist.last_flushed_timestamp =
        (if (lookupA "cpu" s.hist.last_flushed_timestamp).getD 0 <
            (flushStream (t0 + n * p - 5 * 60)
              ((lookupA "cpu" s.hist.last_flushed_timestamp).getD 0)
              ((recs t0 p (n + 1)).drop (n + 1 - B))).2
         then upsertA "cpu"
            (flushStream (t0 + n * p - 5 * 60)
              ((lookupA "cpu" s.hist.last_flushed_timestamp).getD 0)
              ((recs t0 p (n + 1)).drop (n + 1 - B))).2 s.hist.last_flushed_timestamp
         else s.hist.last_flushed_timestamp) := by
      rw [iterAt_hist, flush_to_database_not_throttled hrun]
      show (flushDict (t0 + n * p - 5 * 60)
        (s.hist.add_metric "cpu" 0 (t0 + n * p)).last_flushed_timestamp
        (s.hist.add_metric "cpu" 0 (t0 + n * p)).metrics_buffer).1 = _
      rw [hh1]
      show (flushDict (t0 + n * p - 5 * 60) s.hist.last_flushed_timestamp
        [("cpu", (recs t0 p (n + 1)).drop (n + 1 - B)), ("memory", []), ("disk", []),
         ("temperature", []), ("network", [])]).1 = _
      rw [hM]
    have hins : (iterAt s (t0 + n * p)).inserted = s.inserted ++
        ((flushStream (t0 + n * p - 5 * 60)
          ((lookupA "cpu" s.hist.last_flushed_timestamp).getD 0)
          ((recs t0 p (n + 1)).drop (n + 1 - B))).1.map (fun e => ("cpu", e))) := by
      rw [iterAt_inserted, flush_to_database_not_throttled hrun]
      show s.inserted ++ (flushDict (t0 + n * p - 5 * 60)
        (s.hist.add_metric "cpu" 0 (t0 + n * p)).last_flushed_timestamp
        (s.hist.add_metric "cpu" 0 (t0 + n * p)).metrics_buffer).2 = _
      rw [hh1]
      show s.inserted ++ (flushDict (t0 + n * p - 5 * 60) s.hist.last_flushed_timestamp
        [("cpu", (recs t0 p (n + 1)).drop (n + 1 - B)), ("memory", []), ("disk", []),
         ("temperature", []), ("network", [])]).2 = _
      rw [hM]
    -- facts about the run's flushed batch
    have hmax_lb := lf_le_flushStream_max (t0 + n * p - 5 * 60)
      ((lookupA "cpu" s.hist.last_flushed_timestamp).getD 0)
      ((recs t0 p (n + 1)).drop (n + 1 - B))
    refine ⟨hbs2, hfi2, hmb2, ?_, ?_, ?_, ?_, ?_, ?_, ?_⟩
    · rw [hlf2new]
      linarith
    · rw [hlf2new]
      show t0 + n * p ≤ max t0 (t0 + (((n : Nat) + 1 : Int) - 1) * p)
      have hco : ((n : Int) + 1 - 1) * p = (n : Int) * p := by ring
      rw [hco]
      exact le_max_right _ _
    · rw [hlf2new]
      show t0 + (((n : Nat) + 1 : Int) - 1) * p - (t0 + n * p) < 60
      linarith
    · rw [hlfts2, hlf2new]
      by_cases hup : (lookupA "cpu" s.hist.last_flushed_timestamp).getD 0 <
          (flushStream (t0 + n * p - 5 * 60)
            ((lookupA "cpu" s.hist.last_flushed_timestamp).getD 0)
            ((recs t0 p (n + 1)).drop (n + 1 - B))).2
      · rw [if_pos hup, lookupA_upsertA_self]
        left
        show (flushStream (t0 + n * p - 5 * 60)
          ((lookupA "cpu" s.hist.last_flushed_timestamp).getD 0)
          ((recs t0 p (n + 1)).drop (n + 1 - B))).2 ≤ t0 + n * p - 300
        have := flushStream_max_lt_cutoff hup
        linarith
      · rw [if_neg hup]
        rcases hhwm with hle | h0
        · left
          linarith
        · right
          exact h0
    · rw [hlfts2, hlf2new]
      intro e he hets
      by_cases hup : (lookupA "cpu" s.hist.last_flushed_timestamp).getD 0 <
          (flushStream (t0 + n * p - 5 * 60)
            ((lookupA "cpu" s.hist.last_flushed_timestamp).getD 0)
            ((recs t0 p (n + 1)).drop (n + 1 - B))).2
      · rw [if_pos hup, lookupA_upsertA_self]
        show e.timestamp ≤ (flushStream (t0 + n * p - 5 * 60)
          ((lookupA "cpu" s.hist.last_flushed_timestamp).getD 0)
          ((recs t0 p (n + 1)).drop (n + 1 - B))).2
        by_cases hesm : e.timestamp ≤ (lookupA "cpu" s.hist.last_flushed_timestamp).getD 0
        · linarith
        · refine flushStream_max_le_of_mem (mem_flushStream_iff.mpr ⟨he, ?_, ?_⟩)
          · show e.timestamp < t0 + n * p - 5 * 60
            linarith
          · linarith [not_le.mp hesm]
      · rw [if_neg hup]
        by_cases hesm : e.timestamp ≤ (lookupA "cpu" s.hist.last_flushed_timestamp).getD 0
        · exact hesm
        · have hin : e ∈ (flushStream (t0 + n * p - 5 * 60)
              ((lookupA "cpu" s.hist.last_flushed_timestamp).getD 0)
              ((recs t0 p (n + 1)).drop (n + 1 - B))).1 :=
            mem_flushStream_iff.mpr ⟨he, by show e.timestamp < t0 + n * p - 5 * 60; linarith,
              by linarith [not_le.mp hesm]⟩
          have := flushStream_max_le_of_mem hin
          linarith [not_lt.mp hup]
    · rw [hlfts2, hins]
      intro e he hets
      by_cases hup : (lookupA "cpu" s.hist.last_flushed_timestamp).getD 0 <
          (flushStream (t0 + n * p - 5 * 60)
            ((lookupA "cpu" s.hist.last_flushed_timestamp).getD 0)
            ((recs t0 p (n + 1)).drop (n + 1 - B))).2
      · rw [if_pos hup, lookupA_upsertA_self] at hets
        simp only [Option.getD_some] at hets
        by_cases hesm : e.timestamp ≤ (lookupA "cpu" s.hist.last_flushed_timestamp).getD 0
        · rcases hsplit e he with ⟨hmem, _⟩ | rfl
          · exact List.mem_append_left _ (hcov e hmem hesm)
          · exact absurd hesm (by
              show ¬ t0 + n * p ≤ (lookupA "cpu" s.hist.last_flushed_timestamp).getD 0
              linarith)
        · refine List.mem_append_right _ ?_
          have hmaxlt := flushStream_max_lt_cutoff hup
          have hin : e ∈ (flushStream (t0 + n * p - 5 * 60)
              ((lookupA "cpu" s.hist.last_flushed_timestamp).getD 0)
              ((recs t0 p (n + 1)).drop (n + 1 - B))).1 :=
            mem_flushStream_iff.mpr ⟨he, by linarith, by linarith [not_le.mp hesm]⟩
          simp only [List.mem_map]
          exact ⟨e, hin, rfl⟩
      · rw [if_neg hup] at hets
        rcases hsplit e he with ⟨hmem, _⟩ | rfl
        · exact List.mem_append_left _ (hcov e hmem hets)
        · exact absurd hets (by
            show ¬ t0 + n * p ≤ (lookupA "cpu" s.hist.last_flushed_timestamp).getD 0
            linarith)
    · rw [iterAt_evicted, hins]
      intro r hr
      rcases List.mem_append.mp hr with hrold | hrnew
      · exact List.mem_append_left _ (hevict r hrold)
      · exact List.mem_append_left _ (hevnew r hrnew)

theorem traceInv_all (B : Nat) (t0 p : Int) (hp : 0 < p) (ht0 : 300 < t0)
    (hB : 360 ≤ ((B : Int) - 1) * p) : ∀ n, traceInv B t0 p n (runTrace B t0 p n)
  | 0 => traceInv_zero B t0 p hp
  | n + 1 => traceInv_step B t0 p hp ht0 hB n (runTrace B t0 p n)
      (traceInv_all B t0 p hp ht0 hB n)

/-- C3 counterexample: with sampling period 30 s and buffer capacity 11,
the claim's precondition holds (`freshness_window * 60 / p = 300 / 30 =
10 < 11 = buffer_size`), samples are recorded and flush attempts made at
the fixed period starting from construction time 1000, and yet the very
first sample (timestamp 1000) is evicted from the buffer by capacity
without ever having been inserted into the database: every flush run
whose strict cutoff would have covered it happened only after the
eviction, because the precondition ignores the flush latency. -/
theorem capacity_precondition_counterexample :
    ((300 : Int) / 30 < 11) ∧
    ("cpu", Entry.mk 1000 0) ∈ (runTrace 11 1000 30 12).evicted ∧
    ("cpu", Entry.mk 1000 0) ∉ (runTrace 11 1000 30 12).inserted :=
  ⟨by decide, by decide, by decide⟩

/-- C3 (amended): over the periodic record-and-flush trace of
`collect_metrics_task` — one cpu sample recorded and one self-throttled
`flush_to_database` attempt every `p` seconds on a buffer of capacity `B`
built at time `t0 > 300` — no entry is both evicted from the buffer by
capacity and never inserted into the database, provided
`(B - 1) * p ≥ 360`: the buffer must retain an entry for the freshness
window (300 s) plus a full flush interval (60 s), not merely for the
freshness window as the claim's precondition
`freshness_window_minutes * 60 / sampling_period < buffer_size` demands. -/
theorem no_evicted_entry_unflushed (B : Nat) (t0 p : Int) (hp : 0 < p)
    (ht0 : 300 < t0) (hB : 360 ≤ ((B : Int) - 1) * p) (n : Nat) :
    ∀ r ∈ (runTrace B t0 p n).evicted, r ∈ (runTrace B t0 p n).inserted :=
  (traceInv_all B t0 p hp ht0 hB n).2.2.2.2.2.2.2.2.2

/-- Witness for C3 (amended): capacity 13, period 30 — the first sample
(timestamp 1000) is evicted at iteration 13, and it had indeed been
inserted (by the flush run at time 1360). -/
theorem no_evicted_entry_unflushed_w :
    ((0 : Int) < 30 ∧ (300 : Int) < 1000 ∧
      (360 : Int) ≤ (((13 : Nat) : Int) - 1) * 30 ∧
      ("cpu", Entry.mk 1000 0) ∈ (runTrace 13 1000 30 14).evicted) ∧
    ("cpu", Entry.mk 1000 0) ∈ (runTrace 13 1000 30 14).inserted :=
  ⟨⟨by decide, by decide, by decide, by decide⟩,
    no_evicted_entry_unflushed 13 1000 30 (by decide) (by decide) (by decide) 14
      ("cpu", Entry.mk 1000 0) (by decide)⟩

end PiDash
